import Mathlib

/-!
Verification development for the ECM codec (Error Code Modeler).

The C sources `src/eccedc.c`, `src/ecm.c`, `src/unecm.c` are shallowly
embedded: byte buffers and byte streams become `List Nat` (entries are octet
values), machine integers become `Nat` with explicit `% 2^32` or `&&& 0xFF`
where 32-bit or 8-bit truncation matters, and file I/O becomes list
splitting and concatenation.  `while` loops whose variant is not structural
are written with an explicit fuel argument (always instantiated so that the
fuel never runs out, which the accompanying unfolding lemmas prove).
-/

namespace ECM

/-! ### List infrastructure: segment read and in-place range write -/

/-- `seg l off len` is the contiguous byte segment `l[off .. off+len)`,
the embedding of reading `len` bytes starting at `l + off`. -/
def seg (l : List Nat) (off len : Nat) : List Nat := (l.drop off).take len

/-- `writeAt l off v` overwrites the segment of `l` starting at `off`
with `v`, the embedding of `memcpy(l + off, v, v.length)`. -/
def writeAt (l : List Nat) (off : Nat) (v : List Nat) : List Nat :=
  l.take off ++ v ++ l.drop (off + v.length)

/-- `ecc_f_lut[i] = (uint8_t)((i << 1) ^ (i & 0x80 ? 0x11D : 0))`. -/
def ecc_f_lut (i : Nat) : Nat :=
  ((i <<< 1) ^^^ (if i &&& 0x80 ≠ 0 then 0x11D else 0)) &&& 0xFF

/-- `ecc_b_lut` is filled by `ecc_b_lut[i ^ j] = i` where `j = ecc_f_lut[i]`;
as a function it is the inverse of `i ↦ i ^^^ ecc_f_lut i` on `[0,256)`. -/
def ecc_b_lut (y : Nat) : Nat :=
  (((List.range 256).find? fun i => i ^^^ ecc_f_lut i == y).getD 0)

/-- One step of the EDC table construction:
`edc = (edc >> 1) ^ (edc & 1 ? 0xD8018001 : 0)`. -/
def edc_table_step (edc : Nat) : Nat :=
  (edc >>> 1) ^^^ (if edc &&& 1 ≠ 0 then 0xD8018001 else 0)

/-- `edc_lut[i]`: eight iterations of `edc_table_step` starting from `i`. -/
def edc_lut (i : Nat) : Nat :=
  edc_table_step (edc_table_step (edc_table_step (edc_table_step
    (edc_table_step (edc_table_step (edc_table_step (edc_table_step i)))))))

/-- `edc_compute`: `edc = (edc >> 8) ^ edc_lut[(edc ^ byte) & 0xFF]` over a
byte sequence (the seed is the caller-provided accumulator). -/
def edc_compute (edc : Nat) (src : List Nat) : Nat :=
  src.foldl (fun e b => (e >>> 8) ^^^ edc_lut ((e ^^^ b) &&& 0xFF)) edc

/-- Little-endian 4-byte serialization of a 32-bit EDC value
(`edc_write_bytes` / the trailing-checksum `fputc` sequence). -/
def edcLE (edc : Nat) : List Nat :=
  [edc &&& 0xFF, (edc >>> 8) &&& 0xFF, (edc >>> 16) &&& 0xFF, (edc >>> 24) &&& 0xFF]

/-- Inner loop of `ecc_compute_block` / `ecc_verify_block`: iterate
`minor_count` times over `src` starting at `index`, stepping by `minor_inc`
modulo `size`, folding the two accumulators.  Returns `(ecc_a, ecc_b)`. -/
def ecc_inner (src : List Nat) (size minor_inc : Nat) :
    Nat → Nat → Nat → Nat → Nat × Nat
  | 0, _, a, b => (a, b)
  | n + 1, index, a, b =>
      let temp := src.getD index 0
      let index1 := index + minor_inc
      let index2 := if size ≤ index1 then index1 - size else index1
      ecc_inner src size minor_inc n index2 (ecc_f_lut (a ^^^ temp)) (b ^^^ temp)

/-- The final parity byte pair computed by one `major` iteration of the
shared ECC kernel. -/
def ecc_major (src : List Nat) (mc nc mm mi major : Nat) : Nat × Nat :=
  let st := ecc_inner src (mc * nc) mi nc ((major >>> 1) * mm + (major &&& 1)) 0 0
  let a := ecc_b_lut (ecc_f_lut st.1 ^^^ st.2)
  (a, a ^^^ st.2)

/-- The `2 * major_count` parity bytes written by `ecc_compute_block`:
`dest[major]` for every major, then `dest[major + major_count]`. -/
def ecc_block (src : List Nat) (mc nc mm mi : Nat) : List Nat :=
  ((List.range mc).map fun major => (ecc_major src mc nc mm mi major).1) ++
  ((List.range mc).map fun major => (ecc_major src mc nc mm mi major).2)

/-- `ecc_verify` mirrored with its buffer mutation made explicit: the
address field `[12,16)` is saved, optionally zeroed, the P then Q parity
regions are compared against recomputed blocks (P failure exits early), and
the address is restored on every exit path.  Returns the verdict and the
final state of the buffer. -/
def ecc_verify_st (sector : List Nat) (zeroaddress : Bool) : Bool × List Nat :=
  let saved := seg sector 12 4
  let s0 := if zeroaddress then writeAt sector 12 [0, 0, 0, 0] else sector
  if seg s0 0x81C 172 ≠ ecc_block (s0.drop 12) 86 24 2 86 then
    (false, if zeroaddress then writeAt s0 12 saved else s0)
  else
    (decide (seg s0 0x8C8 104 = ecc_block (s0.drop 12) 52 43 86 88),
     if zeroaddress then writeAt s0 12 saved else s0)

/-- The verdict of `ecc_verify` (the C return value). -/
def ecc_verify (sector : List Nat) (zeroaddress : Bool) : Bool :=
  (ecc_verify_st sector zeroaddress).1

/-- `ecc_generate`: optionally zero the address field, write the P parity
block at `0x81C` and then the Q parity block at `0x8C8` (Q reads the freshly
written P bytes), and restore the saved address field. -/
def ecc_generate (sector : List Nat) (zeroaddress : Bool) : List Nat :=
  let saved := seg sector 12 4
  let s0 := if zeroaddress then writeAt sector 12 [0, 0, 0, 0] else sector
  let s1 := writeAt s0 0x81C (ecc_block (s0.drop 12) 86 24 2 86)
  let s2 := writeAt s1 0x8C8 (ecc_block (s1.drop 12) 52 43 86 88)
  if zeroaddress then writeAt s2 12 saved else s2

/-- `eccedc_generate`: per-type EDC write, Mode 1 reserved-area clear, and
ECC generation (Mode 1 without and Mode 2 Form 1 with address zeroing). -/
def eccedc_generate (sector : List Nat) (ty : Nat) : List Nat :=
  if ty = 1 then
    ecc_generate
      (writeAt (writeAt sector 0x810 (edcLE (edc_compute 0 (seg sector 0 0x810))))
        0x814 (List.replicate 8 0))
      false
  else if ty = 2 then
    ecc_generate (writeAt sector 0x818 (edcLE (edc_compute 0 (seg sector 0x10 0x808)))) true
  else if ty = 3 then
    writeAt sector 0x92C (edcLE (edc_compute 0 (seg sector 0x10 0x91C)))
  else sector

/-- The fixed 12-byte sync pattern `00 FF ×10 00` laid down by
`sector_init_sync`. -/
def sync_bytes : List Nat :=
  [0x00, 0xFF, 0xFF, 0xFF, 0xFF, 0xFF, 0xFF, 0xFF, 0xFF, 0xFF, 0xFF, 0x00]

/-- `to_bcd`: packed BCD of a value in `[0,100)`. -/
def to_bcd (value : Nat) : Nat := ((value / 10) <<< 4) ||| (value % 10)

/-- `sector_to_msf`: BCD minutes/seconds/frames of sector ordinal plus the
150-frame pregap (75 frames per second, 60 seconds per minute); each
component passes through a `uint8_t` cast. -/
def sector_to_msf (sector : Nat) : List Nat :=
  [to_bcd ((sector + 150) / 75 / 60 % 256),
   to_bcd ((sector + 150) / 75 % 60 % 256),
   to_bcd ((sector + 150) % 75 % 256)]

/-! ### Sector classifier (ecm.c) -/

/-- `check_sync_pattern`: byte 0 is `0x00`, bytes 1..10 are `0xFF`,
byte 11 is `0x00`. -/
def check_sync_pattern (sector : List Nat) : Bool :=
  (sector.getD 0 0 == 0x00) &&
  ((List.range 10).all fun i => sector.getD (1 + i) 0 == 0xFF) &&
  (sector.getD 0x0B 0 == 0x00)

/-- `check_reserved_zero`: the 8 reserved bytes at `0x814` are zero. -/
def check_reserved_zero (sector : List Nat) : Bool :=
  (List.range 8).all fun i => sector.getD (0x814 + i) 0 == 0

/-- `check_subheader_dup` (called on `sector + 0x10`): bytes 0..3 equal
bytes 4..7. -/
def check_subheader_dup (s : List Nat) : Bool :=
  (s.getD 0 0 == s.getD 4 0) && (s.getD 1 0 == s.getD 5 0) &&
  (s.getD 2 0 == s.getD 6 0) && (s.getD 3 0 == s.getD 7 0)

/-- `check_edc_match`: the 4 bytes at `offset` are the little-endian
serialization of `edc`. -/
def check_edc_match (s : List Nat) (edc off : Nat) : Bool :=
  (s.getD (off + 0) 0 == (edc >>> 0) &&& 0xFF) &&
  (s.getD (off + 1) 0 == (edc >>> 8) &&& 0xFF) &&
  (s.getD (off + 2) 0 == (edc >>> 16) &&& 0xFF) &&
  (s.getD (off + 3) 0 == (edc >>> 24) &&& 0xFF)

/-- `check_type_raw` with the buffer threaded through the (mutating)
`ecc_verify` calls made explicit; returns the detected type (0 = literal,
1 = Mode 1, 2 = Mode 2 Form 1, 3 = Mode 2 Form 2) together with the final
state of the window. -/
def check_type_raw_st (sector : List Nat) : Nat × List Nat :=
  if ¬ check_sync_pattern sector then (0, sector)
  else if sector.getD 0x0F 0 = 1 then
    if ¬ check_reserved_zero sector then (0, sector)
    else if ¬ check_edc_match sector (edc_compute 0 (seg sector 0 0x810)) 0x810 then (0, sector)
    else
      let v := ecc_verify_st sector false
      if v.1 then (1, v.2) else (0, v.2)
  else if sector.getD 0x0F 0 = 2 then
    if ¬ check_subheader_dup (sector.drop 0x10) then (0, sector)
    else if check_edc_match (sector.drop 0x10) (edc_compute 0 (seg sector 0x10 0x808)) 0x808 then
      let v := ecc_verify_st sector true
      if v.1 then (2, v.2)
      else if check_edc_match (v.2.drop 0x10) (edc_compute 0 (seg v.2 0x10 0x91C)) 0x91C then
        (3, v.2)
      else (0, v.2)
    else if check_edc_match (sector.drop 0x10) (edc_compute 0 (seg sector 0x10 0x91C)) 0x91C then
      (3, sector)
    else (0, sector)
  else (0, sector)

/-- The type returned by `check_type_raw`. -/
def check_type_raw (sector : List Nat) : Nat := (check_type_raw_st sector).1

/-! ### Variable-length type/count codec (ecm.c `write_type_count`,
unecm.c `read_type_count`) -/

/-- Continuation-byte loop of `write_type_count`:
`while (count) { emit ((count >= 128) << 7) | (count & 127); count >>= 7; }`.
The fuel argument bounds the iteration count; `write_cont` instantiates it
with the value itself, which always suffices. -/
def write_cont_go : Nat → Nat → List Nat
  | 0, _ => []
  | fuel + 1, n =>
      if n = 0 then []
      else (((if 128 ≤ n then 1 else 0) <<< 7) ||| (n &&& 127)) :: write_cont_go fuel (n >>> 7)

def write_cont (n : Nat) : List Nat := write_cont_go n n

/-- `write_type_count type count`: `count` is decremented through 32-bit
unsigned wraparound (so `count = 0` becomes `0xFFFFFFFF`, producing the
end-of-records sentinel), then the first byte packs the low 5 bits with the
2-bit type, and the continuation loop emits 7 bits at a time. -/
def write_type_count (ty count : Nat) : List Nat :=
  let n := (count + 0xFFFFFFFF) % 2 ^ 32
  (((if 32 ≤ n then 1 else 0) <<< 7) ||| ((n &&& 31) <<< 2) ||| ty) :: write_cont (n >>> 5)

/-- Error kinds of `read_type_count`: EOF mid-record versus the 32-bit
shift-overflow guard. -/
inductive ReadErr where
  | truncated : ReadErr
  | overflow : ReadErr
  deriving DecidableEq, Repr

/-- Continuation loop of `read_type_count`: while the previous byte `c` had
its high bit set, read the next byte (EOF fails), require `bits < 32`
(else overflow), or the low 7 bits into `num` at position `bits` (32-bit
truncating), and advance `bits` by 7. -/
def read_tc_loop : List Nat → Nat → Nat → Bool → Except ReadErr (Nat × List Nat)
  | l, num, _, false => .ok (num, l)
  | [], _, _, true => .error .truncated
  | c :: rest, num, bits, true =>
      if 32 ≤ bits then .error .overflow
      else read_tc_loop rest ((num ||| ((c &&& 0x7F) <<< bits)) % 2 ^ 32) (bits + 7)
        (c &&& 0x80 ≠ 0)

/-- `read_type_count`: first byte supplies the type (low 2 bits) and the
low 5 bits of `num`; the continuation loop supplies the rest.  Returns the
type, the accumulated `num`, and the unread remainder of the stream. -/
def read_type_count : List Nat → Except ReadErr (Nat × Nat × List Nat)
  | [] => .error .truncated
  | c :: rest =>
      (read_tc_loop rest ((c >>> 2) &&& 0x1F) 5 (c &&& 0x80 ≠ 0)).map
        fun p => (c &&& 3, p.1, p.2)

/-! ### Encoder (ecm.c) -/

/-- The 4-byte magic header `'E' 'C' 'M' 0x00`. -/
def ecm_magic : List Nat := [0x45, 0x43, 0x4D, 0x00]

/-- The scan advance for a literal position in the batch encoder main loop:
`step = (dataavail >= SECTOR_SIZE_RAW) ? SECTOR_SIZE_RAW : dataavail;
if (step == 0) step = 1;`. -/
def ecm_literal_step (dataavail : Nat) : Nat :=
  if 2352 ≤ dataavail then 2352 else if dataavail = 0 then 1 else dataavail

/-- `sector_size_for_type`: every recognised sector type uses the raw
2352-byte format. -/
def sector_size_for_type (t : Nat) : Nat :=
  if t = 0 ∨ t = 1 ∨ t = 2 ∨ t = 3 then 2352 else 1

/-- The analysis pass of the encoder, one entry per scan step: each full
2352-byte window is classified (`check_type_raw`; fewer than 2352 bytes
available forces literal) and the scan advances by `ecm_literal_step` for a
literal and by `sector_size_for_type` for a sector, so every entry is the
detected type together with the bytes stepped over.  The fuel bounds the
number of steps; `chunk_analysis` passes the input length, which always
suffices because every step consumes at least one byte. -/
def chunk_analysis_go : Nat → List Nat → List (Nat × List Nat)
  | 0, _ => []
  | fuel + 1, l =>
      if l = [] then []
      else
        let t := if l.length < 2352 then 0 else check_type_raw (l.take 2352)
        let step := if t = 0 then ecm_literal_step l.length else sector_size_for_type t
        (t, l.take step) :: chunk_analysis_go fuel (l.drop step)

def chunk_analysis (l : List Nat) : List (Nat × List Nat) := chunk_analysis_go l.length l

/-- Run batching of the batch encoder: adjacent analysis steps of equal
type accumulate into a single run (the encoder flushes only on a type
change or at end of input). -/
def coalesce : List (Nat × List Nat) → List (Nat × List Nat)
  | [] => []
  | (t, b) :: rest =>
      match coalesce rest with
      | [] => [(t, b)]
      | (t2, b2) :: rs => if t = t2 then (t, b ++ b2) :: rs else (t, b) :: (t2, b2) :: rs

/-- `write_sector_data`: per-sector EDC accumulation and stored payload for
one raw 2352-byte sector `buf`.  Mode 1 chains the EDC over all 2352 bytes
and stores the 3 address bytes plus 2048 user bytes; the Mode 2 forms chain
the EDC over the 2336-byte body at `0x10` and store the 4-byte subheader
copy plus the user data (2048 or 2324 bytes) starting at `0x14`. -/
def write_sector_data (edc : Nat) (ty : Nat) (buf : List Nat) : Nat × List Nat :=
  if ty = 1 then
    (edc_compute edc (seg buf 0 2352), seg buf 0x0C 3 ++ seg buf 0x10 2048)
  else if ty = 2 then
    (edc_compute edc (seg buf 0x10 2336), seg buf 0x14 0x804)
  else
    (edc_compute edc (seg buf 0x10 2336), seg buf 0x14 0x918)

/-- The `while (count--)` sector loop of `flush_sector_run`: emit each
2352-byte sector of the run in order, threading the image-wide EDC. -/
def sector_run_go : Nat → Nat → List Nat → Nat → Nat × List Nat
  | 0, _, _, edc => (edc, [])
  | k + 1, ty, bytes, edc =>
      let r := write_sector_data edc ty (bytes.take 2352)
      let rest := sector_run_go k ty (bytes.drop 2352) r.1
      (rest.1, r.2 ++ rest.2)

/-- `flush_sector_run`: emit the type/count header followed by the run
payload.  A literal run of `count` bytes is copied verbatim (the source
does this through a 2352-byte staging buffer, which chains the EDC over
exactly the same bytes in the same order); a sector run emits each sector
through `write_sector_data`.  `bytes` are the input bytes of the run that
the source re-reads after seeking back to the run start. -/
def flush_sector_run (edc : Nat) (ty count : Nat) (bytes : List Nat) : Nat × List Nat :=
  if ty = 0 then
    (edc_compute edc bytes, write_type_count 0 count ++ bytes)
  else
    let r := sector_run_go count ty bytes edc
    (r.1, write_type_count ty count ++ r.2)

/-- Flush a list of runs in order, threading the image-wide EDC; the count
of a literal run is its byte count and of a sector run its sector count. -/
def runs_encode (edc : Nat) : List (Nat × List Nat) → Nat × List Nat
  | [] => (edc, [])
  | (t, b) :: rs =>
      let c := if t = 0 then b.length else b.length / 2352
      let r1 := flush_sector_run edc t c b
      let r2 := runs_encode r1.1 rs
      (r2.1, r1.2 ++ r2.2)

/-- The batch encoder `ecmify`: magic header, the coalesced runs of the
analysis pass, the end-of-records sentinel `write_type_count 0 0`, and the
little-endian image-wide EDC. -/
def ecmify (I : List Nat) : List Nat :=
  let r := runs_encode 0 (coalesce (chunk_analysis I))
  ecm_magic ++ r.2 ++ write_type_count 0 0 ++ edcLE r.1

/-- The streaming encoder `ecmify_streaming`: identical framing, but each
analysis step is flushed immediately as its own record (a sector record
always has count 1, a literal record covers the bytes read). -/
def ecmify_streaming (I : List Nat) : List Nat :=
  let r := runs_encode 0 (chunk_analysis I)
  ecm_magic ++ r.2 ++ write_type_count 0 0 ++ edcLE r.1

/-! ### Decoder (unecm.c) -/

/-- Decoder error kinds (the C code prints a distinguishing message and
returns 1 in all cases). -/
inductive DecErr where
  | badMagic : DecErr
  | truncated : DecErr
  | overflow : DecErr
  | corrupt : DecErr
  | edcMismatch : DecErr
  deriving DecidableEq, Repr

/-- Decidable equality of decoder results, for concrete evaluation. -/
instance instDecidableEqExcept {e a : Type} [DecidableEq e] [DecidableEq a] :
    DecidableEq (Except e a)
  | .ok x, .ok y => decidable_of_iff (x = y) (by simp)
  | .error x, .error y => decidable_of_iff (x = y) (by simp)
  | .ok _, .error _ => isFalse (by simp)
  | .error _, .ok _ => isFalse (by simp)

/-- `init_mode2_sector`: zero-fill, sync pattern, position-derived MSF at
offset 12, mode byte 2 at offset 15. -/
def init_mode2_sector (sector_num : Nat) : List Nat :=
  writeAt (writeAt (writeAt (List.replicate 2352 0) 0 sync_bytes)
    0x0C (sector_to_msf sector_num)) 0x0F [0x02]

/-- `sector_copy_subheader`: duplicate bytes `0x14..0x17` into
`0x10..0x13`. -/
def sector_copy_subheader (s : List Nat) : List Nat := writeAt s 0x10 (seg s 0x14 4)

/-- `decode_mode1_sector`: zero-fill, sync, mode byte 1, then the 3 stored
address bytes at offset 12 and 2048 user bytes at offset 16 from the
stream, then `eccedc_generate`.  Returns the reconstructed sector, the
chained image EDC (over all 2352 bytes), and the unread remainder; `none`
is a short read. -/
def decode_mode1_sector (stream : List Nat) (edc : Nat) : Option (List Nat × Nat × List Nat) :=
  if stream.length < 2051 then none
  else
    let sec := eccedc_generate
      (writeAt (writeAt (writeAt (writeAt (List.replicate 2352 0) 0 sync_bytes)
        0x0F [0x01]) 0x0C (stream.take 3)) 0x10 (seg stream 3 2048)) 1
    some (sec, edc_compute edc (seg sec 0 2352), stream.drop 2051)

/-- `decode_mode2_form1_sector`: position-initialised Mode 2 sector, 2052
stored bytes at offset `0x14`, subheader duplication, `eccedc_generate`,
EDC chained over the 2336-byte body. -/
def decode_mode2_form1_sector (stream : List Nat) (bytes_written edc : Nat) :
    Option (List Nat × Nat × List Nat) :=
  if stream.length < 0x804 then none
  else
    let sec := eccedc_generate
      (sector_copy_subheader
        (writeAt (init_mode2_sector (bytes_written / 2352)) 0x14 (stream.take 0x804))) 2
    some (sec, edc_compute edc (seg sec 0x10 2336), stream.drop 0x804)

/-- `decode_mode2_form2_sector`: as Form 1 but with 2328 stored bytes and
no ECC. -/
def decode_mode2_form2_sector (stream : List Nat) (bytes_written edc : Nat) :
    Option (List Nat × Nat × List Nat) :=
  if stream.length < 0x918 then none
  else
    let sec := eccedc_generate
      (sector_copy_subheader
        (writeAt (init_mode2_sector (bytes_written / 2352)) 0x14 (stream.take 0x918))) 3
    some (sec, edc_compute edc (seg sec 0x10 2336), stream.drop 0x918)

/-- The literal-record copy loop of the decoder: read `num` bytes through a
2352-byte staging buffer, chaining the image EDC and passing the bytes
through.  Returns the copied bytes, the new EDC, and the remainder; `none`
is a short read.  The fuel bounds the iteration count (`num` always
suffices since every iteration consumes at least one byte). -/
def literal_copy_go : Nat → Nat → List Nat → Nat → Option (List Nat × Nat × List Nat)
  | _, 0, stream, edc => some ([], edc, stream)
  | 0, _ + 1, _, _ => none
  | fuel + 1, num + 1, stream, edc =>
      let b := if 2352 < num + 1 then 2352 else num + 1
      if stream.length < b then none
      else
        (literal_copy_go fuel (num + 1 - b) (stream.drop b)
          (edc_compute edc (stream.take b))).map
          fun r => (stream.take b ++ r.1, r.2.1, r.2.2)

/-- The `while (num--)` sector loop of the decoder record loop: decode
`count` consecutive sectors of type `ty`, threading the image EDC and the
output byte tracker.  Returns the reconstructed bytes, the EDC, the new
tracker value, and the remainder.  A type outside 1..3 is the unreachable
`default` branch of the C switch, reported as a corrupt file. -/
def unecm_sectors : Nat → Nat → List Nat → Nat → Nat →
    Except DecErr (List Nat × Nat × Nat × List Nat)
  | 0, _, stream, edc, bw => .ok ([], edc, bw, stream)
  | k + 1, ty, stream, edc, bw =>
      let d :=
        if ty = 1 then decode_mode1_sector stream edc
        else if ty = 2 then decode_mode2_form1_sector stream bw edc
        else decode_mode2_form2_sector stream bw edc
      if ty = 1 ∨ ty = 2 ∨ ty = 3 then
        match d with
        | none => .error .truncated
        | some (sec, e2, rest) =>
            match unecm_sectors k ty rest e2 (bw + 2352) with
            | .error e => .error e
            | .ok r => .ok (sec ++ r.1, r.2)
      else .error .corrupt

/-- The decoder record loop: read a type/count, stop on the sentinel
(`num = 0xFFFFFFFF`) and verify the trailing 4-byte EDC, reject a logical
count of `2^31` or more as corrupt, and otherwise process a literal or
sector record.  The fuel bounds the number of records (`stream.length + 1`
always suffices since every record consumes at least one byte). -/
def unecm_loop : Nat → List Nat → Nat → List Nat → Nat → Except DecErr (List Nat)
  | 0, _, _, _, _ => .error .truncated
  | fuel + 1, stream, edc, out, bw =>
      match read_type_count stream with
      | .error .truncated => .error .truncated
      | .error .overflow => .error .overflow
      | .ok (ty, num, rest) =>
          if num = 0xFFFFFFFF then
            if rest.length < 4 then .error .truncated
            else if rest.take 4 = edcLE edc then .ok out
            else .error .edcMismatch
          else if 0x80000000 ≤ num + 1 then .error .corrupt
          else if ty = 0 then
            match literal_copy_go (num + 1) (num + 1) rest edc with
            | none => .error .truncated
            | some (bytes, e2, rest2) => unecm_loop fuel rest2 e2 (out ++ bytes) (bw + (num + 1))
          else
            match unecm_sectors (num + 1) ty rest edc bw with
            | .error e => .error e
            | .ok (secs, e2, bw2, rest2) => unecm_loop fuel rest2 e2 (out ++ secs) bw2

/-- The decoder `unecmify`: verify the magic header, run the record loop
from an empty output with EDC accumulator 0. -/
def unecmify (E : List Nat) : Except DecErr (List Nat) :=
  if E.length < 4 then .error .truncated
  else if E.take 4 ≠ ecm_magic then .error .badMagic
  else unecm_loop (E.length + 1) (E.drop 4) 0 [] 0

/-- A 2352-byte buffer with valid sync and mode byte 2 whose subheader is
not duplicated: bytes `0x10..0x13` are `01 00 00 00` while `0x14..0x17`
are zero. -/
def cex_subheader_sector : List Nat :=
  sync_bytes ++ [0, 0, 0, 2] ++ [1, 0, 0, 0, 0, 0, 0, 0] ++ List.replicate 2328 0

/-- A 2352-byte buffer with valid sync and mode byte 1 (all-zero payload). -/
def wit_mode1_sector : List Nat :=
  sync_bytes ++ [0, 0, 0, 1] ++ List.replicate 2336 0

/-- The sector the decoder reconstructs from a Mode 1 record whose stored
address bytes are `09 09 09` (with an all-zero user data area): exactly the
buffer `decode_mode1_sector` builds before `eccedc_generate`. -/
def cex6_tail_sector : List Nat :=
  eccedc_generate (writeAt (writeAt (writeAt (writeAt (List.replicate 2352 0) 0 sync_bytes)
    0x0F [0x01]) 0x0C [9, 9, 9]) 0x10 (List.replicate 2048 0)) 1

/-- The post-header part of an ECM stream holding one Mode 1 record with
stored address `09 09 09`, the end-of-records sentinel, and the matching
trailing image EDC. -/
def cex6_rest : List Nat :=
  ([9, 9, 9] ++ List.replicate 2048 0) ++
    ([0xFC, 0xFF, 0xFF, 0xFF, 0x3F] ++ edcLE (edc_compute 0 (seg cex6_tail_sector 0 2352)))

/-- A complete ECM stream accepted by the decoder whose single record is a
Mode 1 sector with stored address bytes `09 09 09`. -/
def cex6_stream : List Nat := ecm_magic ++ 1 :: cex6_rest

/-- The concatenated input bytes of a list of analysis chunks or runs. -/
def chunks_bytes : List (Nat × List Nat) → List Nat
  | [] => []
  | (_, b) :: rs => b ++ chunks_bytes rs

/-- The bytes covered by the image-wide EDC for one sector run: a Mode 1
sector contributes all 2352 bytes, a Mode 2 sector only its 2336-byte body
at offset `0x10` (mirrors the `edc_compute` calls of `write_sector_data`). -/
def edc_covered_go : Nat → Nat → List Nat → List Nat
  | 0, _, _ => []
  | k + 1, ty, bytes =>
      (if ty = 1 then seg (bytes.take 2352) 0 2352 else seg (bytes.take 2352) 0x10 2336) ++
        edc_covered_go k ty (bytes.drop 2352)

/-- The EDC-covered bytes of one run: a literal run is covered in full. -/
def run_covered (p : Nat × List Nat) : List Nat :=
  if p.1 = 0 then p.2 else edc_covered_go (p.2.length / 2352) p.1 p.2

/-- The EDC-covered bytes of a run list, in the order the encoder chains
the accumulator. -/
def runs_covered : List (Nat × List Nat) → List Nat
  | [] => []
  | p :: rs => run_covered p ++ runs_covered rs

/-- Well-formedness of an encoder run as the decoder needs it: a literal
run is nonempty; a Mode 1 run is a nonempty sequence of whole raw sectors
each of which the classifier accepts as Mode 1. -/
def run_ok (p : Nat × List Nat) : Prop :=
  (p.1 = 0 ∧ p.2 ≠ []) ∨
  (p.1 = 1 ∧ p.2 ≠ [] ∧ p.2.length % 2352 = 0 ∧
    ∀ j, j * 2352 < p.2.length → check_type_raw (seg p.2 (j * 2352) 2352) = 1)

/-- An all-zero-payload Mode 2 Form 1 sector: valid sync, address `00 00 00`,
mode byte 2, zero body.  `eccedc_generate` maps it to itself (the body EDC
of zeros is zero and the ECC parity of an all-zero source is zero), and the
classifier accepts it as Mode 2 Form 1. -/
def cex_mode2_sector : List Nat := sync_bytes ++ [0, 0, 0, 2] ++ List.replicate 2336 0

/-- What the decoder reconstructs from the encoding of `cex_mode2_sector`:
the same sector except that bytes 12..14 hold the position-derived MSF
`00 02 00` of sector ordinal 0 instead of the original `00 00 00`. -/
def cex1_decoded : List Nat := sync_bytes ++ [0, 2, 0, 2] ++ List.replicate 2336 0

/-! ## Theorems: everything below is proof; the models above are complete. -/

theorem length_seg (l : List Nat) (off len : Nat) (h : off + len ≤ l.length) :
    (seg l off len).length = len := by
  simp [seg]
  omega

theorem length_writeAt (l v : List Nat) (off : Nat) (h : off + v.length ≤ l.length) :
    (writeAt l off v).length = l.length := by
  simp [writeAt]
  omega

theorem getD_append_left (l m : List Nat) (i d : Nat) (h : i < l.length) :
    (l ++ m).getD i d = l.getD i d := by
  rw [List.getD_eq_getElem l d h, List.getD_eq_getElem _ d (by simp; omega)]
  exact List.getElem_append_left h

theorem getD_append_right (l m : List Nat) (i d : Nat) (h : l.length ≤ i) :
    (l ++ m).getD i d = m.getD (i - l.length) d := by
  rcases Nat.lt_or_ge i (l.length + m.length) with hlt | hge
  · rw [List.getD_eq_getElem _ d (by simp; omega), List.getD_eq_getElem _ d (by omega)]
    exact List.getElem_append_right h
  · rw [List.getD_eq_default _ d (by simp; omega), List.getD_eq_default _ d (by omega)]

theorem getD_drop (l : List Nat) (n i d : Nat) :
    (l.drop n).getD i d = l.getD (n + i) d := by
  simp [List.getD]

theorem getD_take (l : List Nat) (n i d : Nat) (h : i < n) :
    (l.take n).getD i d = l.getD i d := by
  rcases Nat.lt_or_ge i l.length with hlt | hge
  · rw [List.getD_eq_getElem _ d (by simp; omega), List.getD_eq_getElem _ d hlt]
    simp
  · rw [List.getD_eq_default _ d (by simp; omega), List.getD_eq_default _ d hge]

theorem getD_replicate (n i : Nat) (x d : Nat) (h : i < n) :
    (List.replicate n x).getD i d = x := by
  rw [List.getD_eq_getElem _ d (by simpa using h)]
  simp

theorem getD_seg (l : List Nat) (off len i d : Nat) (h : i < len) :
    (seg l off len).getD i d = l.getD (off + i) d := by
  rw [seg, getD_take _ _ _ _ h, getD_drop]

/-- Pointwise description of `writeAt` (the write stays in bounds). -/
theorem getD_writeAt (l v : List Nat) (off i : Nat)
    (hb : off + v.length ≤ l.length) :
    (writeAt l off v).getD i 0 =
      if off ≤ i ∧ i < off + v.length then v.getD (i - off) 0 else l.getD i 0 := by
  unfold writeAt
  rw [List.append_assoc]
  have hto : (l.take off).length = off := by simp; omega
  by_cases h1 : i < off
  · rw [getD_append_left (l.take off) (v ++ l.drop (off + v.length)) i 0 (by omega)]
    rw [if_neg (by omega), getD_take _ _ _ _ h1]
  · rw [getD_append_right (l.take off) (v ++ l.drop (off + v.length)) i 0 (by omega), hto]
    by_cases h2 : i < off + v.length
    · rw [getD_append_left v _ (i - off) 0 (by omega)]
      rw [if_pos ⟨by omega, h2⟩]
    · rw [getD_append_right v _ (i - off) 0 (by omega)]
      rw [if_neg (by omega), getD_drop]
      congr 1
      omega

/-- Extensionality for byte lists via `getD`. -/
theorem ext_getD (l m : List Nat) (hlen : l.length = m.length)
    (h : ∀ i, i < l.length → l.getD i 0 = m.getD i 0) : l = m := by
  apply List.ext_getElem hlen
  intro i h1 h2
  have := h i h1
  rwa [List.getD_eq_getElem l 0 h1, List.getD_eq_getElem m 0 h2] at this

/-- Restoring a segment to its own previous contents is the identity. -/
theorem writeAt_seg_self (l : List Nat) (off len : Nat) :
    writeAt l off (seg l off len) = l := by
  unfold writeAt seg
  have h1 : List.drop (off + ((l.drop off).take len).length) l =
      (l.drop off).drop ((l.drop off).take len).length := by
    rw [List.drop_drop, Nat.add_comm]
  rw [h1, List.append_assoc]
  have h2 : ∀ (t : List Nat) (n : Nat), t.take n ++ t.drop (t.take n).length = t := by
    intro t n
    rw [List.length_take]
    rcases le_or_lt n t.length with h | h
    · rw [Nat.min_eq_left h, List.take_append_drop]
    · rw [Nat.min_eq_right (by omega), List.drop_length, List.take_of_length_le (by omega),
        List.append_nil]
  rw [h2, List.take_append_drop]

theorem seg_append (l : List Nat) (off a b : Nat) :
    seg l off a ++ seg l (off + a) b = seg l off (a + b) := by
  unfold seg
  rw [← List.drop_drop]
  generalize l.drop off = t
  rw [← List.take_append_drop a (t.take (a + b)), List.take_take, Nat.min_eq_left (by omega),
    List.drop_take]
  congr 2
  omega

theorem seg_zero_length (l : List Nat) (off : Nat) : seg l off 0 = [] := by
  simp [seg]

theorem seg_all (l : List Nat) : seg l 0 l.length = l := by
  simp [seg]

theorem edc_compute_append (e : Nat) (a b : List Nat) :
    edc_compute e (a ++ b) = edc_compute (edc_compute e a) b := by
  simp [edc_compute]

theorem length_ecc_block (src : List Nat) (mc nc mm mi : Nat) :
    (ecc_block src mc nc mm mi).length = 2 * mc := by
  simp [ecc_block]
  omega

/-! ### Bit-fiddling helpers -/

theorem and_127_eq (m : Nat) : m &&& 127 = m % 128 := by
  have h := Nat.and_pow_two_sub_one_eq_mod m 7
  norm_num at h
  exact h

theorem and_31_eq (m : Nat) : m &&& 31 = m % 32 := by
  have h := Nat.and_pow_two_sub_one_eq_mod m 5
  norm_num at h
  exact h

theorem and_3_eq (m : Nat) : m &&& 3 = m % 4 := by
  have h := Nat.and_pow_two_sub_one_eq_mod m 2
  norm_num at h
  exact h

theorem and_255_eq (m : Nat) : m &&& 255 = m % 256 := by
  have h := Nat.and_pow_two_sub_one_eq_mod m 8
  norm_num at h
  exact h

theorem and_mask32_eq (m : Nat) : m &&& 0xFFFFFFFF = m % 2 ^ 32 := by
  have h := Nat.and_pow_two_sub_one_eq_mod m 32
  norm_num at h
  norm_num
  exact h

/-- Disjoint-range bitwise or is addition. -/
theorem or_eq_add_of_lt (a b k : Nat) (h : b < 2 ^ k) : (a <<< k) ||| b = a * 2 ^ k + b := by
  rw [Nat.shiftLeft_eq, Nat.mul_comm a (2 ^ k), ← Nat.mul_add_lt_is_or h a]

theorem and_128_ne_iff (x : Nat) : (x &&& 128 ≠ 0) ↔ x / 128 % 2 = 1 := by
  have h : x &&& 128 = (Nat.testBit x 7).toNat * 2 ^ 7 := by
    have := Nat.and_two_pow x 7
    norm_num at this ⊢
    exact this
  rw [h, Nat.testBit_to_div_mod]
  by_cases hx : x / 128 % 2 = 1 <;> norm_num [hx]

theorem shiftRight_7_eq (x : Nat) : x >>> 7 = x / 128 := by
  rw [Nat.shiftRight_eq_div_pow]

theorem shiftRight_5_eq (x : Nat) : x >>> 5 = x / 32 := by
  rw [Nat.shiftRight_eq_div_pow]

theorem shiftRight_2_eq (x : Nat) : x >>> 2 = x / 4 := by
  rw [Nat.shiftRight_eq_div_pow]

/-! ### Type/count codec correctness -/

theorem write_cont_go_stable (n : Nat) :
    ∀ f1 f2, n ≤ f1 → n ≤ f2 → write_cont_go f1 n = write_cont_go f2 n := by
  induction n using Nat.strong_induction_on with
  | _ n ih =>
    intro f1 f2 h1 h2
    match f1, f2 with
    | 0, 0 => rfl
    | 0, f2 + 1 =>
        interval_cases n
        rfl
    | f1 + 1, 0 =>
        interval_cases n
        rfl
    | f1 + 1, f2 + 1 =>
        show write_cont_go (f1 + 1) n = write_cont_go (f2 + 1) n
        unfold write_cont_go
        by_cases hn : n = 0
        · simp [hn]
        · simp only [hn, if_false]
          have hlt : n >>> 7 < n := by
            rw [shiftRight_7_eq]
            exact Nat.div_lt_self (Nat.pos_of_ne_zero hn) (by norm_num)
          rw [ih (n >>> 7) hlt f1 f2 (by omega) (by omega)]

theorem write_cont_go_eq (fuel n : Nat) (h : n ≤ fuel) :
    write_cont_go fuel n = write_cont n :=
  write_cont_go_stable n fuel n h Nat.le.refl

/-- The one-step unfolding of the continuation-byte writer. -/
theorem write_cont_unfold (n : Nat) :
    write_cont n = if n = 0 then []
      else (((if 128 ≤ n then 1 else 0) <<< 7) ||| (n &&& 127)) :: write_cont (n >>> 7) := by
  rcases n with _ | m
  · rfl
  · show write_cont_go (m + 1) (m + 1) = _
    unfold write_cont_go
    simp only [Nat.succ_ne_zero, if_false]
    rw [write_cont_go_eq m ((m + 1) >>> 7) ?h]
    case h =>
      rw [shiftRight_7_eq]
      have := Nat.div_lt_self (Nat.succ_pos m) (show 1 < 128 by norm_num)
      omega

/-- Correctness of the continuation-byte loop: reading the bytes written
for `m` (starting at bit position `bits` with accumulator `num`) yields
`num + m * 2^bits` and consumes exactly the written bytes. -/
theorem read_tc_loop_write_cont (m : Nat) :
    ∀ (num bits : Nat) (rest : List Nat) (flag : Bool),
      m < 2 ^ (32 - bits) → num < 2 ^ bits → (flag = true ↔ m ≠ 0) →
      read_tc_loop (write_cont m ++ rest) num bits flag =
        .ok (num + m * 2 ^ bits, rest) := by
  induction m using Nat.strong_induction_on with
  | _ m ih =>
    intro num bits rest flag hm hnum hflag
    by_cases hm0 : m = 0
    · subst hm0
      have hf : flag = false := by
        rcases flag with _ | _
        · rfl
        · simp at hflag
      subst hf
      rw [write_cont_unfold]
      simp [read_tc_loop]
    · have hf : flag = true := by
        rcases flag with _ | _
        · exact absurd (hflag.mpr hm0) (by simp)
        · rfl
      subst hf
      have hbits : ¬ 32 ≤ bits := by
        intro hb
        have : 32 - bits = 0 := by omega
        rw [this] at hm
        omega
      rw [write_cont_unfold, if_neg hm0]
      set lo := m &&& 127 with hlo
      have hlo128 : lo < 128 := by
        rw [hlo, and_127_eq]
        exact Nat.mod_lt m (by norm_num)
      set eps : Nat := if 128 ≤ m then 1 else 0 with heps
      have hbyte : (eps <<< 7) ||| lo = eps * 128 + lo := by
        have := or_eq_add_of_lt eps lo 7 (by norm_num [hlo128])
        norm_num at this ⊢
        exact this
      have heps1 : eps ≤ 1 := by rw [heps]; split <;> norm_num
      have hdiv : (eps * 128 + lo) / 128 = eps := by omega
      have hmod : (eps * 128 + lo) % 128 = lo := by omega
      show read_tc_loop (((eps <<< 7) ||| lo) :: (write_cont (m >>> 7) ++ rest)) num bits true = _
      unfold read_tc_loop
      rw [if_neg hbits]
      have hand7F : ((eps <<< 7) ||| lo) &&& 0x7F = lo := by
        rw [hbyte]
        show (eps * 128 + lo) &&& 127 = lo
        rw [and_127_eq, hmod]
      have hand80 : (((eps <<< 7) ||| lo) &&& 0x80 ≠ 0) ↔ (m >>> 7 ≠ 0) := by
        rw [hbyte]
        have h1 : ((eps * 128 + lo) &&& 128 ≠ 0) ↔ eps = 1 := by
          rw [and_128_ne_iff, hdiv]
          omega
        have h2 : (m >>> 7 ≠ 0) ↔ 128 ≤ m := by
          rw [shiftRight_7_eq]
          constructor
          · intro h
            by_contra hc
            exact h (Nat.div_eq_of_lt (by omega))
          · intro h
            have : 1 ≤ m / 128 := (Nat.le_div_iff_mul_le (by norm_num)).mpr (by omega)
            omega
        have h3 : eps = 1 ↔ 128 ≤ m := by rw [heps]; split <;> simp_all
        rw [h1, h3, h2]
      rw [hand7F]
      have hloval : lo = m % 128 := by rw [hlo, and_127_eq]
      -- the new accumulator fits in 32 bits, so the reduction is the identity
      have hbits31 : bits ≤ 31 := by omega
      have hsum_lt : lo * 2 ^ bits + num < 2 ^ 32 := by
        by_cases hb : bits + 7 ≤ 32
        · have : lo * 2 ^ bits + num < 128 * 2 ^ bits := by
            have h1 : lo * 2 ^ bits ≤ 127 * 2 ^ bits :=
              Nat.mul_le_mul_right _ (by omega)
            have h2 : num < 2 ^ bits := hnum
            nlinarith [Nat.pos_pow_of_pos bits (show 0 < 2 by norm_num)]
          calc lo * 2 ^ bits + num < 128 * 2 ^ bits := this
            _ = 2 ^ (bits + 7) := by rw [Nat.pow_add]; ring
            _ ≤ 2 ^ 32 := Nat.pow_le_pow_right (by norm_num) hb
        · have hbig : 26 ≤ bits := by omega
          have hm128 : m < 128 := by
            have : 2 ^ (32 - bits) ≤ 2 ^ 6 := Nat.pow_le_pow_right (by norm_num) (by omega)
            omega
          have hlom : lo = m := by rw [hloval]; omega
          have : (m + 1) * 2 ^ bits ≤ 2 ^ (32 - bits) * 2 ^ bits := by
            exact Nat.mul_le_mul_right _ (by omega)
          have h32 : 2 ^ (32 - bits) * 2 ^ bits = 2 ^ 32 := by
            rw [← Nat.pow_add]
            congr 1
            omega
          calc lo * 2 ^ bits + num < lo * 2 ^ bits + 2 ^ bits := by omega
            _ = (lo + 1) * 2 ^ bits := by ring
            _ ≤ 2 ^ 32 := by rw [hlom]; omega
      have hnum2 : (num ||| ((lo <<< bits))) % 2 ^ 32 = num + lo * 2 ^ bits := by
        rw [Nat.lor_comm, or_eq_add_of_lt lo num bits hnum, Nat.mod_eq_of_lt (by omega)]
        omega
      rw [hnum2]
      have hrec := ih (m >>> 7) (by
          rw [shiftRight_7_eq]
          exact Nat.div_lt_self (Nat.pos_of_ne_zero hm0) (by norm_num))
        (num + lo * 2 ^ bits) (bits + 7) rest (decide (m >>> 7 ≠ 0))
        (by
          rw [shiftRight_7_eq]
          by_cases hb : bits + 7 ≤ 32
          · rw [Nat.div_lt_iff_lt_mul (show (0:Nat) < 128 by norm_num)]
            have : 2 ^ (32 - (bits + 7)) * 128 = 2 ^ (32 - bits) := by
              rw [show (128 : Nat) = 2 ^ 7 by norm_num, ← Nat.pow_add]
              congr 1
              omega
            omega
          · have hm128 : m < 128 := by
              have : 2 ^ (32 - bits) ≤ 2 ^ 6 := Nat.pow_le_pow_right (by norm_num) (by omega)
              omega
            have : m / 128 = 0 := Nat.div_eq_of_lt hm128
            have hp : (0:Nat) < 2 ^ (32 - (bits + 7)) := Nat.pos_pow_of_pos _ (by norm_num)
            omega)
        (by
          have : num + lo * 2 ^ bits < 128 * 2 ^ bits := by
            have h1 : lo * 2 ^ bits ≤ 127 * 2 ^ bits := Nat.mul_le_mul_right _ (by omega)
            nlinarith [Nat.pos_pow_of_pos bits (show 0 < 2 by norm_num)]
          calc num + lo * 2 ^ bits < 128 * 2 ^ bits := this
            _ = 2 ^ (bits + 7) := by rw [Nat.pow_add]; ring)
        (by simp)
      rw [show (decide (((eps <<< 7) ||| lo) &&& 0x80 ≠ 0)) = (decide (m >>> 7 ≠ 0)) from
        decide_eq_decide.mpr hand80, hrec]
      congr 2
      have hsplit : m = lo + 128 * (m / 128) := by rw [hloval]; omega
      rw [shiftRight_7_eq]
      calc num + lo * 2 ^ bits + m / 128 * 2 ^ (bits + 7)
          = num + (lo + 128 * (m / 128)) * 2 ^ bits := by rw [Nat.pow_add]; ring
        _ = num + m * 2 ^ bits := by rw [← hsplit]

/-- Reading back a written type/count, in full generality: for any type in
`[0,4)` and any `count < 2^32` the decoder recovers the type and the 32-bit
value `count - 1` (with unsigned wraparound), consuming exactly the written
bytes.  `count = 0` therefore reads back as the sentinel value
`0xFFFFFFFF`. -/
theorem read_write_type_count (ty count : Nat) (rest : List Nat) (hty : ty < 4) :
    read_type_count (write_type_count ty count ++ rest) =
      .ok (ty, (count + 0xFFFFFFFF) % 2 ^ 32, rest) := by
  unfold write_type_count
  set n := (count + 0xFFFFFFFF) % 2 ^ 32 with hn
  have hn32 : n < 2 ^ 32 := Nat.mod_lt _ (by norm_num)
  set lo5 := n &&& 31 with hlo5
  have hlo5v : lo5 = n % 32 := by rw [hlo5, and_31_eq]
  have hlo5lt : lo5 < 32 := by omega
  set eps : Nat := if 32 ≤ n then 1 else 0 with heps
  have heps1 : eps ≤ 1 := by rw [heps]; split <;> norm_num
  have hc1 : (lo5 <<< 2) ||| ty = lo5 * 4 + ty := by
    have := or_eq_add_of_lt lo5 ty 2 (by norm_num; omega)
    norm_num at this ⊢
    omega
  have hc2 : (eps <<< 7) ||| ((lo5 <<< 2) ||| ty) = eps * 128 + (lo5 * 4 + ty) := by
    rw [hc1]
    have := or_eq_add_of_lt eps (lo5 * 4 + ty) 7 (by norm_num; omega)
    norm_num at this ⊢
    omega
  have hassoc : (eps <<< 7) ||| (lo5 <<< 2) ||| ty = eps * 128 + (lo5 * 4 + ty) := by
    rw [Nat.lor_assoc, hc2]
  set c := eps * 128 + (lo5 * 4 + ty) with hcv
  have hclt : c < 256 := by omega
  show read_type_count ((((eps <<< 7) ||| (lo5 <<< 2) ||| ty) :: write_cont (n >>> 5)) ++ rest)
      = _
  rw [List.cons_append, hassoc]
  have hand3 : c &&& 3 = ty := by
    rw [and_3_eq, hcv]
    omega
  have hshift : (c >>> 2) &&& 0x1F = lo5 := by
    rw [shiftRight_2_eq, and_31_eq, hcv]
    omega
  have hflag : (c &&& 0x80 ≠ 0) ↔ (n >>> 5 ≠ 0) := by
    rw [and_128_ne_iff, shiftRight_5_eq, hcv]
    have hd : (eps * 128 + (lo5 * 4 + ty)) / 128 = eps := by omega
    rw [hd, heps]
    constructor
    · intro h
      split at h <;> omega
    · intro h
      split <;> omega
  have hm : n >>> 5 < 2 ^ (32 - 5) := by
    rw [shiftRight_5_eq]
    have : n / 32 < 2 ^ 32 / 32 + 1 := by
      have := Nat.div_le_div_right (c := 32) (Nat.le_of_lt hn32)
      omega
    norm_num at this ⊢
    omega
  have hloop := read_tc_loop_write_cont (n >>> 5) ((c >>> 2) &&& 0x1F) 5 rest
    (decide (c &&& 0x80 ≠ 0)) hm (by rw [hshift]; norm_num; omega)
    (by simpa using hflag)
  show (read_tc_loop (write_cont (n >>> 5) ++ rest) ((c >>> 2) &&& 0x1F) 5
      (decide (c &&& 0x80 ≠ 0))).map (fun p => (c &&& 3, p.1, p.2)) = _
  rw [hloop]
  simp only [Except.map]
  rw [hand3, hshift, hlo5v, shiftRight_5_eq]
  have hre : n % 32 + n / 32 * 2 ^ 5 = n := by
    norm_num
    omega
  rw [hre]

theorem read_write_type_count_pos (ty count : Nat) (rest : List Nat) (hty : ty < 4)
    (h1 : 1 ≤ count) (h2 : count < 2 ^ 32) :
    read_type_count (write_type_count ty count ++ rest) = .ok (ty, count - 1, rest) := by
  rw [read_write_type_count ty count rest hty]
  have h3 : (count + 0xFFFFFFFF) % 2 ^ 32 = count - 1 := by
    norm_num at h2 ⊢
    omega
  rw [h3]

theorem read_write_sentinel (rest : List Nat) :
    read_type_count (write_type_count 0 0 ++ rest) = .ok (0, 0xFFFFFFFF, rest) := by
  rw [read_write_type_count 0 0 rest (by norm_num)]
  norm_num

theorem map_eq_error_overflow {a b : Type} (x : Except ReadErr a) (f : a → b) :
    x.map f = .error .overflow ↔ x = .error .overflow := by
  cases x <;> simp [Except.map]

/-- The continuation loop signals its overflow exactly on a fifth
continuation byte: entered at bit position 5, it fails with `.overflow`
precisely when the four bytes it can absorb all have their high bit set and
a fifth byte is present. -/
theorem read_tc_loop_overflow_shape (r : List Nat) (num : Nat) (flag : Bool) :
    read_tc_loop r num 5 flag = .error .overflow ↔
      ∃ c1 c2 c3 c4 c5 rest, r = c1 :: c2 :: c3 :: c4 :: c5 :: rest ∧
        flag = true ∧ c1 &&& 0x80 ≠ 0 ∧ c2 &&& 0x80 ≠ 0 ∧ c3 &&& 0x80 ≠ 0 ∧
        c4 &&& 0x80 ≠ 0 := by
  constructor
  · intro h
    cases flag with
    | false => simp [read_tc_loop] at h
    | true =>
      match r with
      | [] => simp [read_tc_loop] at h
      | [c1] =>
        by_cases h1 : c1 &&& 0x80 ≠ 0 <;> simp [read_tc_loop, h1] at h
      | [c1, c2] =>
        by_cases h1 : c1 &&& 0x80 ≠ 0 <;> by_cases h2 : c2 &&& 0x80 ≠ 0 <;>
          simp [read_tc_loop, h1, h2] at h
      | [c1, c2, c3] =>
        by_cases h1 : c1 &&& 0x80 ≠ 0 <;> by_cases h2 : c2 &&& 0x80 ≠ 0 <;>
          by_cases h3 : c3 &&& 0x80 ≠ 0 <;> simp [read_tc_loop, h1, h2, h3] at h
      | [c1, c2, c3, c4] =>
        by_cases h1 : c1 &&& 0x80 ≠ 0 <;> by_cases h2 : c2 &&& 0x80 ≠ 0 <;>
          by_cases h3 : c3 &&& 0x80 ≠ 0 <;> by_cases h4 : c4 &&& 0x80 ≠ 0 <;>
          simp [read_tc_loop, h1, h2, h3, h4] at h
      | c1 :: c2 :: c3 :: c4 :: c5 :: rest =>
        by_cases h1 : c1 &&& 0x80 ≠ 0
        · by_cases h2 : c2 &&& 0x80 ≠ 0
          · by_cases h3 : c3 &&& 0x80 ≠ 0
            · by_cases h4 : c4 &&& 0x80 ≠ 0
              · exact ⟨c1, c2, c3, c4, c5, rest, rfl, rfl, h1, h2, h3, h4⟩
              · simp [read_tc_loop, h1, h2, h3, h4] at h
            · simp [read_tc_loop, h1, h2, h3] at h
          · simp [read_tc_loop, h1, h2] at h
        · simp [read_tc_loop, h1] at h
  · rintro ⟨c1, c2, c3, c4, c5, rest, rfl, rfl, h1, h2, h3, h4⟩
    simp [read_tc_loop, h1, h2, h3, h4]

/-- C5: the type/count codec round-trips on its stated domain: for every
type in `{0,1,2,3}` and every count in `[1, 2^31)`, decoding the bytes of
`write_type_count` yields back the type and `num = count - 1` (logical
count `num + 1 = count`) with no error, never producing the sentinel value
`0xFFFFFFFF`, and consuming exactly the written bytes. -/
theorem claim_C5_type_count_roundtrip (ty count : Nat) (rest : List Nat)
    (hty : ty < 4) (h1 : 1 ≤ count) (h2 : count < 2 ^ 31) :
    read_type_count (write_type_count ty count ++ rest) = .ok (ty, count - 1, rest) ∧
    (count - 1) + 1 = count ∧ count - 1 ≠ 0xFFFFFFFF := by
  refine ⟨read_write_type_count_pos ty count rest hty h1 (by norm_num at h2 ⊢; omega), by omega,
    by norm_num at h2 ⊢; omega⟩

theorem claim_C5_witness :
    2 < 4 ∧ 1 ≤ 1000 ∧ 1000 < 2 ^ 31 ∧
      read_type_count (write_type_count 2 1000 ++ []) = .ok (2, 999, []) :=
  ⟨by norm_num, by norm_num, by norm_num,
   (claim_C5_type_count_roundtrip 2 1000 [] (by norm_num) (by norm_num) (by norm_num)).1⟩

/-- C3, counterexample: the encoder does not emit `FC FF FF FF 7F` for the
reserved pair `(0,0)` (its last byte is `0x3F`, since the fourth
continuation byte carries only the remaining 6 one-bits), and the empty
image does not encode to the 13 bytes the claim states. -/
theorem claim_C3_counterexample :
    write_type_count 0 0 ≠ [0xFC, 0xFF, 0xFF, 0xFF, 0x7F] ∧
    ecmify [] ≠
      [0x45, 0x43, 0x4D, 0x00, 0xFC, 0xFF, 0xFF, 0xFF, 0x7F, 0x00, 0x00, 0x00, 0x00] := by
  decide

/-- C3, amended: encoding `(0,0)` emits exactly `FC FF FF FF 3F`, and the
empty image encodes to exactly
`45 43 4D 00 FC FF FF FF 3F 00 00 00 00`. -/
theorem claim_C3_amended :
    write_type_count 0 0 = [0xFC, 0xFF, 0xFF, 0xFF, 0x3F] ∧
    ecmify [] =
      [0x45, 0x43, 0x4D, 0x00, 0xFC, 0xFF, 0xFF, 0xFF, 0x3F, 0x00, 0x00, 0x00, 0x00] := by
  decide

/-- C4, counterexample: with at least 2352 bytes available, a literal scan
step advances by 2352 bytes, not by 1. -/
theorem claim_C4_counterexample :
    ecm_literal_step 2353 = 2352 ∧ ecm_literal_step 2353 ≠ 1 := by
  decide

/-- C4, amended: in the batch encoder main loop a literal position advances
by `min 2352 dataavail` bytes (`cur_count` grows by the same step), and a
sector position advances by 2352 bytes; consequently sectors are only ever
detected at scan positions that are multiples of 2352. -/
theorem claim_C4_amended :
    (∀ n, 1 ≤ n → ecm_literal_step n = min 2352 n) ∧
    (∀ t, t = 1 ∨ t = 2 ∨ t = 3 → sector_size_for_type t = 2352) := by
  constructor
  · intro n hn
    unfold ecm_literal_step
    split_ifs <;> omega
  · intro t ht
    unfold sector_size_for_type
    rw [if_pos (by tauto)]

theorem claim_C4_witness :
    (1 ≤ 100 ∧ ecm_literal_step 100 = min 2352 100) ∧
      ((2 = 1 ∨ 2 = 2 ∨ 2 = 3) ∧ sector_size_for_type 2 = 2352) :=
  ⟨⟨by norm_num, claim_C4_amended.1 100 (by norm_num)⟩,
   ⟨by norm_num, claim_C4_amended.2 2 (by norm_num)⟩⟩

/-- C9: `read_type_count` fails with overflow exactly when the first five
bytes of the stream all have their high bit set and a sixth byte arrives
(the fifth continuation byte is read at accumulated bit position 33), and
the decoder record loop rejects a non-sentinel record exactly when its
logical count `num + 1` reaches `2^31` (otherwise the record is accepted
and processed as a literal or sector run). -/
theorem claim_C9_read_errors :
    (∀ l : List Nat, read_type_count l = .error .overflow ↔
      ∃ b0 b1 b2 b3 b4 b5 rest, l = b0 :: b1 :: b2 :: b3 :: b4 :: b5 :: rest ∧
        b0 &&& 0x80 ≠ 0 ∧ b1 &&& 0x80 ≠ 0 ∧ b2 &&& 0x80 ≠ 0 ∧ b3 &&& 0x80 ≠ 0 ∧
        b4 &&& 0x80 ≠ 0) ∧
    (∀ fuel stream edc out bw ty num rest,
      read_type_count stream = .ok (ty, num, rest) → num ≠ 0xFFFFFFFF →
      (0x80000000 ≤ num + 1 →
        unecm_loop (fuel + 1) stream edc out bw = .error .corrupt) ∧
      (num + 1 < 0x80000000 →
        unecm_loop (fuel + 1) stream edc out bw =
          if ty = 0 then
            match literal_copy_go (num + 1) (num + 1) rest edc with
            | none => .error .truncated
            | some r => unecm_loop fuel r.2.2 r.2.1 (out ++ r.1) (bw + (num + 1))
          else
            match unecm_sectors (num + 1) ty rest edc bw with
            | .error e => .error e
            | .ok r => unecm_loop fuel r.2.2.2 r.2.1 (out ++ r.1) r.2.2.1)) := by
  constructor
  · intro l
    match l with
    | [] =>
      simp [read_type_count]
    | c :: r =>
      rw [show read_type_count (c :: r) =
          (read_tc_loop r ((c >>> 2) &&& 0x1F) 5 (decide (c &&& 0x80 ≠ 0))).map
            (fun p => (c &&& 3, p.1, p.2)) from rfl,
        map_eq_error_overflow, read_tc_loop_overflow_shape]
      constructor
      · rintro ⟨c1, c2, c3, c4, c5, rest, rfl, hf, h1, h2, h3, h4⟩
        refine ⟨c, c1, c2, c3, c4, c5, rest, rfl, ?_, h1, h2, h3, h4⟩
        simpa using hf
      · rintro ⟨b0, b1, b2, b3, b4, b5, rest, heq, h0, h1, h2, h3, h4⟩
        cases heq
        exact ⟨b1, b2, b3, b4, b5, rest, rfl, by simpa using h0, h1, h2, h3, h4⟩
  · intro fuel stream edc out bw ty num rest hread hnum
    constructor
    · intro hbig
      unfold unecm_loop
      rw [hread]
      simp only [hnum, if_false, if_pos hbig]
    · intro hsmall
      conv_lhs => rw [unecm_loop]
      rw [hread]
      simp only [hnum, if_false, if_neg (by omega : ¬ 0x80000000 ≤ num + 1)]
      by_cases hty : ty = 0
      · simp only [hty, if_true]
        cases literal_copy_go (num + 1) (num + 1) rest edc with
        | none => rfl
        | some r =>
            rcases r with ⟨bytes, e2, rest2⟩
            rfl
      · simp only [hty, if_false]
        cases unecm_sectors (num + 1) ty rest edc bw with
        | error e => rfl
        | ok r =>
            rcases r with ⟨secs, e2, bw2, rest2⟩
            rfl

theorem claim_C9_witness :
    (read_type_count [0x80, 0x80, 0x80, 0x80, 0x80, 0x00] = .error .overflow) ∧
    (read_type_count (write_type_count 0 0xFFFFFFFF ++ [9]) =
        .ok (0, 0xFFFFFFFE, [9]) ∧
      unecm_loop 1 (write_type_count 0 0xFFFFFFFF ++ [9]) 0 [] 0 = .error .corrupt) := by
  refine ⟨?_, ?_, ?_⟩
  · exact (claim_C9_read_errors.1 _).mpr
      ⟨0x80, 0x80, 0x80, 0x80, 0x80, 0x00, [], rfl, by decide, by decide, by decide,
       by decide, by decide⟩
  · exact read_write_type_count_pos 0 0xFFFFFFFF [9] (by norm_num) (by norm_num)
      (by norm_num)
  · have h := (claim_C9_read_errors.2 0 (write_type_count 0 0xFFFFFFFF ++ [9]) 0 [] 0
      0 0xFFFFFFFE [9]
      (read_write_type_count_pos 0 0xFFFFFFFF [9] (by norm_num) (by norm_num) (by norm_num))
      (by norm_num)).1 (by norm_num)
    exact h

/-- C10: the decoder treats any record whose accumulated `num` is
`0xFFFFFFFF` as the end-of-records sentinel regardless of the 2-bit type
field: the bytes `FD FF FF FF 7F` decode to type 1 with the sentinel value,
and a stream using them in place of the canonical sentinel is accepted
(here decoding to the empty image with a matching zero EDC trailer). -/
theorem claim_C10_sentinel_type_ignored :
    read_type_count [0xFD, 0xFF, 0xFF, 0xFF, 0x7F] = .ok (1, 0xFFFFFFFF, []) ∧
    0xFD &&& 3 = 1 ∧
    unecmify ([0x45, 0x43, 0x4D, 0x00] ++ [0xFD, 0xFF, 0xFF, 0xFF, 0x7F] ++ [0, 0, 0, 0]) =
      .ok [] := by
  decide

/-! ### Buffer preservation: the classifier restores the window (C8) -/

theorem writeAt_writeAt_same (l v w : List Nat) (off : Nat) (hvw : v.length = w.length)
    (hb : off + v.length ≤ l.length) :
    writeAt (writeAt l off v) off w = writeAt l off w := by
  have hlen : (writeAt l off v).length = l.length := length_writeAt l v off hb
  have h1 : (writeAt (writeAt l off v) off w).length = l.length := by
    rw [length_writeAt _ _ _ (by rw [hlen]; omega), hlen]
  have h2 : (writeAt l off w).length = l.length := length_writeAt _ _ _ (by omega)
  apply ext_getD
  · rw [h1, h2]
  · intro i hi
    rw [h1] at hi
    rw [getD_writeAt (writeAt l off v) w off i (by rw [hlen]; omega),
      getD_writeAt l w off i (by omega)]
    by_cases hin : off ≤ i ∧ i < off + w.length
    · rw [if_pos hin, if_pos hin]
    · rw [if_neg hin, if_neg hin, getD_writeAt l v off i (by omega),
        if_neg (by omega)]

theorem ecc_verify_st_snd (s : List Nat) (z : Bool) (h : 16 ≤ s.length) :
    (ecc_verify_st s z).2 = s := by
  have hseg : (seg s 12 4).length = 4 := length_seg s 12 4 (by omega)
  have hrestore : writeAt (writeAt s 12 [0, 0, 0, 0]) 12 (seg s 12 4) = s := by
    rw [writeAt_writeAt_same s [0, 0, 0, 0] (seg s 12 4) 12 (by rw [hseg]; rfl)
      (by simp; omega)]
    exact writeAt_seg_self s 12 4
  cases z with
  | false =>
      show (if seg s 0x81C 172 ≠ ecc_block (s.drop 12) 86 24 2 86 then
          ((false : Bool), s)
        else (decide (seg s 0x8C8 104 = ecc_block (s.drop 12) 52 43 86 88), s)).2 = s
      split <;> rfl
  | true =>
      show (if seg (writeAt s 12 [0, 0, 0, 0]) 0x81C 172 ≠
            ecc_block ((writeAt s 12 [0, 0, 0, 0]).drop 12) 86 24 2 86 then
          ((false : Bool), writeAt (writeAt s 12 [0, 0, 0, 0]) 12 (seg s 12 4))
        else (decide (seg (writeAt s 12 [0, 0, 0, 0]) 0x8C8 104 =
            ecc_block ((writeAt s 12 [0, 0, 0, 0]).drop 12) 52 43 86 88),
          writeAt (writeAt s 12 [0, 0, 0, 0]) 12 (seg s 12 4))).2 = s
      split <;> exact hrestore

theorem ecc_verify_st_eq (s : List Nat) (z : Bool) (h : 16 ≤ s.length) :
    ecc_verify_st s z = (ecc_verify s z, s) := by
  have h2 := ecc_verify_st_snd s z h
  unfold ecc_verify
  exact Prod.ext rfl h2

theorem check_type_raw_st_snd (s : List Nat) (h : 16 ≤ s.length) :
    (check_type_raw_st s).2 = s := by
  unfold check_type_raw_st
  rw [ecc_verify_st_eq s false h, ecc_verify_st_eq s true h]
  simp only []
  split_ifs <;> rfl

/-- C8: the classifier returns the 2352-byte window byte-for-byte unchanged
on every exit path: the `ecc_verify` buffer state after the temporary
address-field zeroing is the input buffer, and so is the window state after
`check_type_raw` (whose verdict is exactly `check_type_raw`). -/
theorem claim_C8_classifier_restores (s : List Nat) (h : s.length = 2352) :
    (∀ z, (ecc_verify_st s z).2 = s) ∧ (check_type_raw_st s).2 = s ∧
      (check_type_raw_st s).1 = check_type_raw s :=
  ⟨fun z => ecc_verify_st_snd s z (by omega), check_type_raw_st_snd s (by omega), rfl⟩

theorem claim_C8_witness :
    (List.replicate 2352 0).length = 2352 ∧
      (check_type_raw_st (List.replicate 2352 0)).2 = List.replicate 2352 0 :=
  ⟨by rw [List.length_replicate],
   (claim_C8_classifier_restores (List.replicate 2352 0) (by rw [List.length_replicate])).2.1⟩

/-! ### Classifier characterization -/

theorem check_sync_iff (s : List Nat) : check_sync_pattern s = true ↔
    (s.getD 0 0 = 0 ∧ (∀ i, i < 10 → s.getD (1 + i) 0 = 0xFF) ∧ s.getD 11 0 = 0) := by
  unfold check_sync_pattern
  simp [List.all_eq_true]
  tauto

theorem check_reserved_iff (s : List Nat) : check_reserved_zero s = true ↔
    ∀ i, i < 8 → s.getD (0x814 + i) 0 = 0 := by
  unfold check_reserved_zero
  simp [List.all_eq_true]

theorem check_subheader_iff (s : List Nat) : check_subheader_dup (s.drop 0x10) = true ↔
    ∀ i, i < 4 → s.getD (0x10 + i) 0 = s.getD (0x14 + i) 0 := by
  unfold check_subheader_dup
  simp only [Bool.and_eq_true, beq_iff_eq, getD_drop]
  constructor
  · rintro ⟨⟨⟨h0, h1⟩, h2⟩, h3⟩ i hi
    interval_cases i
    · exact h0
    · exact h1
    · exact h2
    · exact h3
  · intro h
    exact ⟨⟨⟨h 0 (by norm_num), h 1 (by norm_num)⟩, h 2 (by norm_num)⟩, h 3 (by norm_num)⟩

theorem check_edc_match_iff (s : List Nat) (edc off : Nat) :
    check_edc_match s edc off = true ↔
      ∀ k, k < 4 → s.getD (off + k) 0 = (edcLE edc).getD k 0 := by
  unfold check_edc_match edcLE
  simp only [Bool.and_eq_true, beq_iff_eq]
  constructor
  · rintro ⟨⟨⟨h0, h1⟩, h2⟩, h3⟩ k hk
    interval_cases k
    · simpa using h0
    · exact h1
    · exact h2
    · exact h3
  · intro h
    refine ⟨⟨⟨?_, h 1 (by norm_num)⟩, h 2 (by norm_num)⟩, h 3 (by norm_num)⟩
    simpa using h 0 (by norm_num)

theorem ecc_verify_false_iff (w : List Nat) :
    ecc_verify w false = true ↔
      (seg w 0x81C 172 = ecc_block (w.drop 12) 86 24 2 86 ∧
       seg w 0x8C8 104 = ecc_block (w.drop 12) 52 43 86 88) := by
  show (if seg w 0x81C 172 ≠ ecc_block (w.drop 12) 86 24 2 86 then ((false : Bool), w)
      else (decide (seg w 0x8C8 104 = ecc_block (w.drop 12) 52 43 86 88), w)).1 = true ↔ _
  split_ifs with h1
  · simp only [show ((false : Bool) = true) = False by simp, false_iff]
    intro hc
    exact h1 hc.1
  · push_neg at h1
    simp [h1]

theorem ecc_verify_zero_iff (w : List Nat) :
    ecc_verify w true = true ↔
      (seg (writeAt w 12 [0, 0, 0, 0]) 0x81C 172 =
        ecc_block ((writeAt w 12 [0, 0, 0, 0]).drop 12) 86 24 2 86 ∧
       seg (writeAt w 12 [0, 0, 0, 0]) 0x8C8 104 =
        ecc_block ((writeAt w 12 [0, 0, 0, 0]).drop 12) 52 43 86 88) := by
  show (if seg (writeAt w 12 [0, 0, 0, 0]) 0x81C 172 ≠
        ecc_block ((writeAt w 12 [0, 0, 0, 0]).drop 12) 86 24 2 86 then
      ((false : Bool), writeAt (writeAt w 12 [0, 0, 0, 0]) 12 (seg w 12 4))
    else (decide (seg (writeAt w 12 [0, 0, 0, 0]) 0x8C8 104 =
        ecc_block ((writeAt w 12 [0, 0, 0, 0]).drop 12) 52 43 86 88),
      writeAt (writeAt w 12 [0, 0, 0, 0]) 12 (seg w 12 4))).1 = true ↔ _
  split_ifs with h1
  · simp only [show ((false : Bool) = true) = False by simp, false_iff]
    intro hc
    exact h1 hc.1
  · push_neg at h1
    simp [h1]

theorem check_type_raw_one_iff (w : List Nat) (h : 16 ≤ w.length) :
    check_type_raw w = 1 ↔
      check_sync_pattern w = true ∧ w.getD 0x0F 0 = 1 ∧ check_reserved_zero w = true ∧
      check_edc_match w (edc_compute 0 (seg w 0 0x810)) 0x810 = true ∧
      ecc_verify w false = true := by
  unfold check_type_raw check_type_raw_st
  rw [ecc_verify_st_eq w false h, ecc_verify_st_eq w true h]
  simp only []
  split_ifs <;> simp_all

theorem check_type_raw_two_iff (w : List Nat) (h : 16 ≤ w.length) :
    check_type_raw w = 2 ↔
      check_sync_pattern w = true ∧ w.getD 0x0F 0 = 2 ∧
      check_subheader_dup (w.drop 0x10) = true ∧
      check_edc_match (w.drop 0x10) (edc_compute 0 (seg w 0x10 0x808)) 0x808 = true ∧
      ecc_verify w true = true := by
  unfold check_type_raw check_type_raw_st
  rw [ecc_verify_st_eq w false h, ecc_verify_st_eq w true h]
  simp only []
  split_ifs <;> simp_all

theorem check_type_raw_three_iff (w : List Nat) (h : 16 ≤ w.length) :
    check_type_raw w = 3 ↔
      check_sync_pattern w = true ∧ w.getD 0x0F 0 = 2 ∧
      check_subheader_dup (w.drop 0x10) = true ∧
      ¬ (check_edc_match (w.drop 0x10) (edc_compute 0 (seg w 0x10 0x808)) 0x808 = true ∧
         ecc_verify w true = true) ∧
      check_edc_match (w.drop 0x10) (edc_compute 0 (seg w 0x10 0x91C)) 0x91C = true := by
  unfold check_type_raw check_type_raw_st
  rw [ecc_verify_st_eq w false h, ecc_verify_st_eq w true h]
  simp only []
  split_ifs <;> simp_all

theorem check_type_raw_lt (w : List Nat) (h : 16 ≤ w.length) : check_type_raw w < 4 := by
  unfold check_type_raw check_type_raw_st
  rw [ecc_verify_st_eq w false h, ecc_verify_st_eq w true h]
  simp only []
  split_ifs <;> norm_num

/-! ### Lengths and pointwise behaviour of the generators -/

theorem length_edcLE (e : Nat) : (edcLE e).length = 4 := rfl

theorem length_ecc_pq (t : List Nat) (ht : t.length = 2352) :
    (writeAt (writeAt t 0x81C (ecc_block (t.drop 12) 86 24 2 86)) 0x8C8
      (ecc_block ((writeAt t 0x81C (ecc_block (t.drop 12) 86 24 2 86)).drop 12)
        52 43 86 88)).length = 2352 := by
  have h1 : (writeAt t 0x81C (ecc_block (t.drop 12) 86 24 2 86)).length = 2352 := by
    rw [length_writeAt]
    · exact ht
    · rw [length_ecc_block]
      omega
  rw [length_writeAt]
  · exact h1
  · rw [length_ecc_block, h1]

theorem getD_ecc_pq_low (t : List Nat) (ht : t.length = 2352) (i : Nat) (hi : i < 0x81C) :
    (writeAt (writeAt t 0x81C (ecc_block (t.drop 12) 86 24 2 86)) 0x8C8
      (ecc_block ((writeAt t 0x81C (ecc_block (t.drop 12) 86 24 2 86)).drop 12)
        52 43 86 88)).getD i 0 = t.getD i 0 := by
  have h1 : (writeAt t 0x81C (ecc_block (t.drop 12) 86 24 2 86)).length = 2352 := by
    rw [length_writeAt]
    · exact ht
    · rw [length_ecc_block]
      omega
  rw [getD_writeAt _ _ _ _ (by rw [length_ecc_block, h1]),
    if_neg (by rw [length_ecc_block]; omega),
    getD_writeAt _ _ _ _ (by rw [length_ecc_block]; omega),
    if_neg (by rw [length_ecc_block]; omega)]

theorem length_ecc_generate (s : List Nat) (z : Bool) (h : s.length = 2352) :
    (ecc_generate s z).length = 2352 := by
  unfold ecc_generate
  simp only []
  split
  · rw [length_writeAt]
    · exact length_ecc_pq _ (by rw [length_writeAt] <;> simp [h])
    · rw [length_ecc_pq _ (by rw [length_writeAt] <;> simp [h]), length_seg] <;> omega
  · exact length_ecc_pq s h

theorem getD_ecc_generate_low (s : List Nat) (z : Bool) (i : Nat) (h : s.length = 2352)
    (hi : i < 0x81C) : (ecc_generate s z).getD i 0 = s.getD i 0 := by
  unfold ecc_generate
  simp only []
  split
  · have hz : (writeAt s 12 [0, 0, 0, 0]).length = 2352 := by
      rw [length_writeAt] <;> simp [h]
    have hkey := length_ecc_pq _ hz
    have hseg4 : (seg s 12 4).length = 4 := length_seg s 12 4 (by omega)
    rw [getD_writeAt _ _ _ _ (by rw [hkey, hseg4]; omega)]
    rw [hseg4]
    by_cases hin : 12 ≤ i ∧ i < 12 + 4
    · rw [if_pos hin, getD_seg s 12 4 (i - 12) 0 (by omega)]
      congr 1
      omega
    · rw [if_neg hin, getD_ecc_pq_low _ hz i hi,
        getD_writeAt _ _ _ _ (by simp [h]), if_neg (by simp at hin ⊢; omega)]
  · exact getD_ecc_pq_low s h i hi

theorem length_eccedc_generate (s : List Nat) (ty : Nat) (h : s.length = 2352) :
    (eccedc_generate s ty).length = 2352 := by
  unfold eccedc_generate
  split_ifs
  · exact length_ecc_generate _ false (by
      rw [length_writeAt, length_writeAt] <;> simp [h, length_edcLE] <;>
        rw [length_writeAt] <;> simp [h, length_edcLE])
  · exact length_ecc_generate _ true (by rw [length_writeAt] <;> simp [h, length_edcLE])
  · rw [length_writeAt] <;> simp [h, length_edcLE]
  · exact h

theorem getD_eccedc_generate_one_low (s : List Nat) (i : Nat) (h : s.length = 2352)
    (hi : i < 0x810) : (eccedc_generate s 1).getD i 0 = s.getD i 0 := by
  unfold eccedc_generate
  rw [if_pos rfl]
  have h1 : (writeAt s 0x810 (edcLE (edc_compute 0 (seg s 0 0x810)))).length = 2352 := by
    rw [length_writeAt] <;> simp [h, length_edcLE]
  have h2 : (writeAt (writeAt s 0x810 (edcLE (edc_compute 0 (seg s 0 0x810)))) 0x814
      (List.replicate 8 0)).length = 2352 := by
    rw [length_writeAt] <;> simp [h1]
  rw [getD_ecc_generate_low _ false i h2 (by omega),
    getD_writeAt _ _ _ _ (by simp [h1]), if_neg (by simp; omega),
    getD_writeAt _ _ _ _ (by simp [h, length_edcLE]), if_neg (by simp [length_edcLE]; omega)]

theorem getD_eccedc_generate_two_low (s : List Nat) (i : Nat) (h : s.length = 2352)
    (hi : i < 0x818) : (eccedc_generate s 2).getD i 0 = s.getD i 0 := by
  unfold eccedc_generate
  rw [if_neg (by norm_num), if_pos rfl]
  have h1 : (writeAt s 0x818 (edcLE (edc_compute 0 (seg s 0x10 0x808)))).length = 2352 := by
    rw [length_writeAt] <;> simp [h, length_edcLE]
  rw [getD_ecc_generate_low _ true i h1 (by omega),
    getD_writeAt _ _ _ _ (by simp [h, length_edcLE]), if_neg (by simp [length_edcLE]; omega)]

theorem getD_eccedc_generate_three_low (s : List Nat) (i : Nat) (h : s.length = 2352)
    (hi : i < 0x92C) : (eccedc_generate s 3).getD i 0 = s.getD i 0 := by
  unfold eccedc_generate
  rw [if_neg (by norm_num), if_neg (by norm_num), if_pos rfl]
  rw [getD_writeAt _ _ _ _ (by simp [h, length_edcLE]), if_neg (by simp [length_edcLE]; omega)]

/-! ### ECC kernel: congruence and the all-zero case -/

theorem ecc_inner_congr (s1 s2 : List Nat) (size mi : Nat)
    (hmi : mi < size) (hagree : ∀ i, i < size → s1.getD i 0 = s2.getD i 0) :
    ∀ (k idx a b : Nat), idx < size →
      ecc_inner s1 size mi k idx a b = ecc_inner s2 size mi k idx a b := by
  intro k
  induction k with
  | zero => intro idx a b _; rfl
  | succ n ih =>
      intro idx a b hidx
      unfold ecc_inner
      simp only []
      rw [hagree idx hidx]
      exact ih _ _ _ (by split_ifs <;> omega)

theorem ecc_block_congr (s1 s2 : List Nat) (mc nc mm mi : Nat)
    (hmi : mi < mc * nc)
    (hstart : ∀ major, major < mc → (major >>> 1) * mm + (major &&& 1) < mc * nc)
    (hagree : ∀ i, i < mc * nc → s1.getD i 0 = s2.getD i 0) :
    ecc_block s1 mc nc mm mi = ecc_block s2 mc nc mm mi := by
  unfold ecc_block ecc_major
  congr 1 <;>
    exact List.map_congr_left fun major hmaj => by
      rw [ecc_inner_congr s1 s2 (mc * nc) mi hmi hagree nc _ 0 0
        (hstart major (List.mem_range.mp hmaj))]

theorem edc_lut_zero : edc_lut 0 = 0 := by decide

theorem edc_compute_zero (l : List Nat) (hz : ∀ x ∈ l, x = 0) : edc_compute 0 l = 0 := by
  induction l with
  | nil => rfl
  | cons x t ih =>
      have hx : x = 0 := hz x (by simp)
      subst hx
      show edc_compute ((0 >>> 8) ^^^ edc_lut ((0 ^^^ 0) &&& 0xFF)) t = 0
      simp only [Nat.zero_shiftRight, Nat.zero_xor, Nat.zero_and, edc_lut_zero]
      exact ih fun x hx => hz x (by simp [hx])

theorem edc_compute_replicate_zero (n : Nat) : edc_compute 0 (List.replicate n 0) = 0 :=
  edc_compute_zero _ (by intro x hx; exact List.eq_of_mem_replicate hx)

theorem ecc_f_lut_zero : ecc_f_lut 0 = 0 := by decide

theorem ecc_b_lut_zero : ecc_b_lut 0 = 0 := by decide

theorem ecc_inner_zero (src : List Nat) (size mi : Nat)
    (hz : ∀ i, src.getD i 0 = 0) :
    ∀ (k idx : Nat), ecc_inner src size mi k idx 0 0 = (0, 0) := by
  intro k
  induction k with
  | zero => intro idx; rfl
  | succ n ih =>
      intro idx
      unfold ecc_inner
      simp only [hz idx, Nat.xor_zero, ecc_f_lut_zero]
      exact ih _

theorem ecc_major_zero (src : List Nat) (mc nc mm mi major : Nat)
    (hz : ∀ i, src.getD i 0 = 0) : ecc_major src mc nc mm mi major = (0, 0) := by
  unfold ecc_major
  rw [ecc_inner_zero src (mc * nc) mi hz nc _]
  simp [ecc_f_lut_zero, ecc_b_lut_zero]

theorem ecc_block_zero (src : List Nat) (mc nc mm mi : Nat)
    (hz : ∀ i, src.getD i 0 = 0) :
    ecc_block src mc nc mm mi = List.replicate (2 * mc) 0 := by
  unfold ecc_block
  have h1 : ((List.range mc).map fun major => (ecc_major src mc nc mm mi major).1)
      = List.replicate mc 0 := by
    refine List.eq_replicate_iff.mpr ⟨by simp, ?_⟩
    intro b hb
    rcases List.mem_map.mp hb with ⟨major, _, rfl⟩
    rw [ecc_major_zero src mc nc mm mi major hz]
  have h2 : ((List.range mc).map fun major => (ecc_major src mc nc mm mi major).2)
      = List.replicate mc 0 := by
    refine List.eq_replicate_iff.mpr ⟨by simp, ?_⟩
    intro b hb
    rcases List.mem_map.mp hb with ⟨major, _, rfl⟩
    rw [ecc_major_zero src mc nc mm mi major hz]
  rw [h1, h2, ← List.replicate_add]
  congr 1
  omega

theorem seg_writeAt_self (l v : List Nat) (off : Nat) (h : off + v.length ≤ l.length) :
    seg (writeAt l off v) off v.length = v := by
  have hl : (writeAt l off v).length = l.length := length_writeAt l v off h
  apply ext_getD
  · rw [length_seg _ _ _ (by omega)]
  · intro i hi
    rw [length_seg _ _ _ (by omega)] at hi
    rw [getD_seg _ _ _ _ _ hi, getD_writeAt _ _ _ _ h, if_pos ⟨by omega, by omega⟩]
    congr 1
    omega

theorem seg_congr (a b : List Nat) (off len : Nat) (ha : off + len ≤ a.length)
    (hb : off + len ≤ b.length)
    (hag : ∀ i, off ≤ i → i < off + len → a.getD i 0 = b.getD i 0) :
    seg a off len = seg b off len := by
  apply ext_getD
  · rw [length_seg _ _ _ ha, length_seg _ _ _ hb]
  · intro i hi
    rw [length_seg _ _ _ ha] at hi
    rw [getD_seg _ _ _ _ _ hi, getD_seg _ _ _ _ _ hi]
    exact hag (off + i) (by omega) (by omega)

theorem drop_congr_getD (a b : List Nat) (off n i : Nat) (hi : i < n)
    (hag : ∀ j, off ≤ j → j < off + n → a.getD j 0 = b.getD j 0) :
    (a.drop off).getD i 0 = (b.drop off).getD i 0 := by
  rw [getD_drop, getD_drop]
  exact hag (off + i) (by omega) (by omega)

theorem ecc_p_start (major : Nat) (h : major < 86) :
    (major >>> 1) * 2 + (major &&& 1) < 86 * 24 := by
  rw [Nat.shiftRight_one, Nat.and_one_is_mod]
  omega

theorem ecc_q_start (major : Nat) (h : major < 52) :
    (major >>> 1) * 86 + (major &&& 1) < 52 * 43 := by
  rw [Nat.shiftRight_one, Nat.and_one_is_mod]
  omega

/-- Freshly generated P/Q parity passes `ecc_verify` with the same
address-zeroing mode. -/
theorem ecc_generate_verifies (t : List Nat) (ht : t.length = 2352) (z : Bool) :
    ecc_verify (ecc_generate t z) z = true := by
  cases z with
  | false =>
      have hP : (ecc_block (t.drop 12) 86 24 2 86).length = 172 := by
        rw [length_ecc_block]
      set P := ecc_block (t.drop 12) 86 24 2 86 with hPdef
      set s3 := writeAt t 0x81C P with hs3
      have hs3len : s3.length = 2352 := by rw [hs3, length_writeAt] <;> omega
      have hQ : (ecc_block (s3.drop 12) 52 43 86 88).length = 104 := by
        rw [length_ecc_block]
      set Q := ecc_block (s3.drop 12) 52 43 86 88 with hQdef
      set gen := writeAt s3 0x8C8 Q with hgen
      have hgenlen : gen.length = 2352 := by rw [hgen, length_writeAt] <;> omega
      have hgeneq : ecc_generate t false = gen := by
        rw [hgen, hs3, hPdef, hQdef]
        rfl
      rw [hgeneq, ecc_verify_false_iff]
      have hag3 : ∀ i, 12 ≤ i → i < 0x8C8 → gen.getD i 0 = s3.getD i 0 := by
        intro i h1 h2
        rw [hgen, getD_writeAt _ _ _ _ (by omega), if_neg (by omega)]
      have hagt : ∀ i, 12 ≤ i → i < 0x81C → gen.getD i 0 = t.getD i 0 := by
        intro i h1 h2
        rw [hag3 i h1 (by omega), hs3, getD_writeAt _ _ _ _ (by omega), if_neg (by omega)]
      constructor
      · have h1 : seg gen 0x81C 172 = seg s3 0x81C 172 :=
          seg_congr _ _ _ _ (by omega) (by omega) fun i hi1 hi2 => hag3 i (by omega) (by omega)
        have h2 : seg s3 0x81C 172 = P := by
          have := seg_writeAt_self t P 0x81C (by omega)
          rw [hP] at this
          rw [hs3, this]
        rw [h1, h2, hPdef]
        exact (ecc_block_congr _ _ 86 24 2 86 (by norm_num) ecc_p_start
          fun i hi => drop_congr_getD _ _ 12 2064 i hi
            fun j hj1 hj2 => hagt j hj1 (by omega)).symm
      · have h1 : seg gen 0x8C8 104 = Q := by
          have := seg_writeAt_self s3 Q 0x8C8 (by omega)
          rw [hQ] at this
          rw [hgen, this]
        rw [h1, hQdef]
        exact (ecc_block_congr _ _ 52 43 86 88 (by norm_num) ecc_q_start
          fun i hi => drop_congr_getD _ _ 12 2236 i hi
            fun j hj1 hj2 => hag3 j hj1 (by omega)).symm
  | true =>
      set z0 := writeAt t 12 [0, 0, 0, 0] with hz0
      have hz0len : z0.length = 2352 := by rw [hz0, length_writeAt] <;> simp [ht]
      have hP : (ecc_block (z0.drop 12) 86 24 2 86).length = 172 := by
        rw [length_ecc_block]
      set P := ecc_block (z0.drop 12) 86 24 2 86 with hPdef
      set s3 := writeAt z0 0x81C P with hs3
      have hs3len : s3.length = 2352 := by rw [hs3, length_writeAt] <;> omega
      have hQ : (ecc_block (s3.drop 12) 52 43 86 88).length = 104 := by
        rw [length_ecc_block]
      set Q := ecc_block (s3.drop 12) 52 43 86 88 with hQdef
      set s4 := writeAt s3 0x8C8 Q with hs4
      have hs4len : s4.length = 2352 := by rw [hs4, length_writeAt] <;> omega
      set gen := writeAt s4 12 (seg t 12 4) with hgen
      have hsavedlen : (seg t 12 4).length = 4 := length_seg t 12 4 (by omega)
      have hgenlen : gen.length = 2352 := by rw [hgen, length_writeAt] <;> omega
      have hgeneq : ecc_generate t true = gen := by
        rw [hgen, hs4, hs3, hPdef, hQdef, hz0]
        rfl
      rw [hgeneq, ecc_verify_zero_iff]
      set z1 := writeAt gen 12 [0, 0, 0, 0] with hz1
      have hz1len : z1.length = 2352 := by rw [hz1, length_writeAt] <;> simp [hgenlen]
      -- z1 agrees with s4 outside the address field, and with z0 inside it
      have hz1s4 : ∀ i, 16 ≤ i → z1.getD i 0 = s4.getD i 0 := by
        intro i h1
        rw [hz1, getD_writeAt _ _ _ _ (by simp [hgenlen]), if_neg (by simp; omega),
          hgen, getD_writeAt _ _ _ _ (by omega), if_neg (by omega)]
      have hs4s3 : ∀ i, i < 0x8C8 → s4.getD i 0 = s3.getD i 0 := by
        intro i h1
        rw [hs4, getD_writeAt _ _ _ _ (by omega), if_neg (by omega)]
      have hs3z0 : ∀ i, i < 0x81C → s3.getD i 0 = z0.getD i 0 := by
        intro i h1
        rw [hs3, getD_writeAt _ _ _ _ (by omega), if_neg (by omega)]
      have hz1z0addr : ∀ i, 12 ≤ i → i < 16 → z1.getD i 0 = z0.getD i 0 := by
        intro i h1 h2
        rw [hz1, getD_writeAt _ _ _ _ (by simp [hgenlen]), if_pos ⟨h1, by simp; omega⟩,
          hz0, getD_writeAt _ _ _ _ (by simp [ht]), if_pos ⟨h1, by simp; omega⟩]
      have hz1z0 : ∀ i, 12 ≤ i → i < 0x81C → z1.getD i 0 = z0.getD i 0 := by
        intro i h1 h2
        by_cases h3 : i < 16
        · exact hz1z0addr i h1 h3
        · rw [hz1s4 i (by omega), hs4s3 i (by omega), hs3z0 i h2]
      have hz1s3 : ∀ i, 12 ≤ i → i < 0x8C8 → z1.getD i 0 = s3.getD i 0 := by
        intro i h1 h2
        by_cases h3 : i < 16
        · rw [hz1z0addr i h1 h3, (hs3z0 i (by omega)).symm]
        · rw [hz1s4 i (by omega), hs4s3 i h2]
      constructor
      · have h1 : seg z1 0x81C 172 = seg s3 0x81C 172 :=
          seg_congr _ _ _ _ (by omega) (by omega)
            fun i hi1 hi2 => hz1s3 i (by omega) (by omega)
        have h2 : seg s3 0x81C 172 = P := by
          have := seg_writeAt_self z0 P 0x81C (by omega)
          rw [hP] at this
          rw [hs3, this]
        rw [h1, h2, hPdef]
        exact (ecc_block_congr _ _ 86 24 2 86 (by norm_num) ecc_p_start
          fun i hi => drop_congr_getD _ _ 12 2064 i hi
            fun j hj1 hj2 => hz1z0 j hj1 (by omega)).symm
      · have h1 : seg z1 0x8C8 104 = seg s4 0x8C8 104 :=
          seg_congr _ _ _ _ (by omega) (by omega)
            fun i hi1 hi2 => hz1s4 i (by omega)
        have h2 : seg s4 0x8C8 104 = Q := by
          have := seg_writeAt_self s3 Q 0x8C8 (by omega)
          rw [hQ] at this
          rw [hs4, this]
        rw [h1, h2, hQdef]
        exact (ecc_block_congr _ _ 52 43 86 88 (by norm_num) ecc_q_start
          fun i hi => drop_congr_getD _ _ 12 2236 i hi
            fun j hj1 hj2 => hz1s3 j hj1 (by omega)).symm

/-! ### Generated sectors pass the classifier (C7) -/

theorem getD_eccedc_one_edc (s : List Nat) (k : Nat) (h : s.length = 2352) (hk : k < 4) :
    (eccedc_generate s 1).getD (0x810 + k) 0 =
      (edcLE (edc_compute 0 (seg s 0 0x810))).getD k 0 := by
  have h1 : (writeAt s 0x810 (edcLE (edc_compute 0 (seg s 0 0x810)))).length = 2352 := by
    rw [length_writeAt] <;> simp [h, length_edcLE]
  have h2 : (writeAt (writeAt s 0x810 (edcLE (edc_compute 0 (seg s 0 0x810)))) 0x814
      (List.replicate 8 0)).length = 2352 := by
    rw [length_writeAt] <;> simp [h1]
  unfold eccedc_generate
  rw [if_pos rfl]
  rw [getD_ecc_generate_low _ false _ h2 (by omega),
    getD_writeAt _ _ _ _ (by simp [h1]), if_neg (by simp; omega),
    getD_writeAt _ _ _ _ (by simp [h, length_edcLE]),
    if_pos ⟨by omega, by simp [length_edcLE]; omega⟩, Nat.add_sub_cancel_left]

theorem getD_eccedc_one_reserved (s : List Nat) (j : Nat) (h : s.length = 2352) (hj : j < 8) :
    (eccedc_generate s 1).getD (0x814 + j) 0 = 0 := by
  have h1 : (writeAt s 0x810 (edcLE (edc_compute 0 (seg s 0 0x810)))).length = 2352 := by
    rw [length_writeAt] <;> simp [h, length_edcLE]
  have h2 : (writeAt (writeAt s 0x810 (edcLE (edc_compute 0 (seg s 0 0x810)))) 0x814
      (List.replicate 8 0)).length = 2352 := by
    rw [length_writeAt] <;> simp [h1]
  unfold eccedc_generate
  rw [if_pos rfl]
  rw [getD_ecc_generate_low _ false _ h2 (by omega),
    getD_writeAt _ _ _ _ (by simp [h1]), if_pos ⟨by omega, by simp; omega⟩,
    getD_replicate _ _ _ _ (by simp; omega)]

theorem getD_eccedc_two_edc (s : List Nat) (k : Nat) (h : s.length = 2352) (hk : k < 4) :
    (eccedc_generate s 2).getD (0x818 + k) 0 =
      (edcLE (edc_compute 0 (seg s 0x10 0x808))).getD k 0 := by
  have h1 : (writeAt s 0x818 (edcLE (edc_compute 0 (seg s 0x10 0x808)))).length = 2352 := by
    rw [length_writeAt] <;> simp [h, length_edcLE]
  unfold eccedc_generate
  rw [if_neg (by norm_num), if_pos rfl]
  rw [getD_ecc_generate_low _ true _ h1 (by omega),
    getD_writeAt _ _ _ _ (by simp [h, length_edcLE]),
    if_pos ⟨by omega, by simp [length_edcLE]; omega⟩, Nat.add_sub_cancel_left]

theorem getD_eccedc_three_edc (s : List Nat) (k : Nat) (h : s.length = 2352) (hk : k < 4) :
    (eccedc_generate s 3).getD (0x92C + k) 0 =
      (edcLE (edc_compute 0 (seg s 0x10 0x91C))).getD k 0 := by
  unfold eccedc_generate
  rw [if_neg (by norm_num), if_neg (by norm_num), if_pos rfl]
  rw [getD_writeAt _ _ _ _ (by simp [h, length_edcLE]),
    if_pos ⟨by omega, by simp [length_edcLE]; omega⟩, Nat.add_sub_cancel_left]

theorem classify_generate_one (s : List Nat) (h : s.length = 2352)
    (hsync : check_sync_pattern s = true) (hmode : s.getD 0x0F 0 = 1) :
    check_type_raw (eccedc_generate s 1) = 1 := by
  have hlen : (eccedc_generate s 1).length = 2352 := length_eccedc_generate s 1 h
  have hpres : ∀ i, i < 0x810 → (eccedc_generate s 1).getD i 0 = s.getD i 0 :=
    fun i hi => getD_eccedc_generate_one_low s i h hi
  rw [check_type_raw_one_iff _ (by omega)]
  rw [check_sync_iff] at hsync
  refine ⟨?_, ?_, ?_, ?_, ?_⟩
  · rw [check_sync_iff]
    exact ⟨by rw [hpres 0 (by norm_num)]; exact hsync.1,
           fun i hi => by rw [hpres (1 + i) (by omega)]; exact hsync.2.1 i hi,
           by rw [hpres 11 (by norm_num)]; exact hsync.2.2⟩
  · rw [hpres 0x0F (by norm_num)]
    exact hmode
  · rw [check_reserved_iff]
    intro i hi
    exact getD_eccedc_one_reserved s i h hi
  · rw [check_edc_match_iff]
    intro k hk
    have hseg : seg (eccedc_generate s 1) 0 0x810 = seg s 0 0x810 :=
      seg_congr _ _ _ _ (by omega) (by omega) fun i _ hi2 => hpres i (by omega)
    rw [hseg]
    exact getD_eccedc_one_edc s k h hk
  · have hunf : eccedc_generate s 1 = ecc_generate
        (writeAt (writeAt s 0x810 (edcLE (edc_compute 0 (seg s 0 0x810)))) 0x814
          (List.replicate 8 0)) false := by
      unfold eccedc_generate
      rw [if_pos rfl]
    rw [hunf]
    exact ecc_generate_verifies _ (by
      rw [length_writeAt]
      · rw [length_writeAt] <;> simp [h, length_edcLE]
      · rw [length_writeAt] <;> simp [h, length_edcLE]) false

theorem classify_generate_two (s : List Nat) (h : s.length = 2352)
    (hsync : check_sync_pattern s = true) (hmode : s.getD 0x0F 0 = 2)
    (hsub : check_subheader_dup (s.drop 0x10) = true) :
    check_type_raw (eccedc_generate s 2) = 2 := by
  have hlen : (eccedc_generate s 2).length = 2352 := length_eccedc_generate s 2 h
  have hpres : ∀ i, i < 0x818 → (eccedc_generate s 2).getD i 0 = s.getD i 0 :=
    fun i hi => getD_eccedc_generate_two_low s i h hi
  rw [check_type_raw_two_iff _ (by omega)]
  rw [check_sync_iff] at hsync
  rw [check_subheader_iff] at hsub
  refine ⟨?_, ?_, ?_, ?_, ?_⟩
  · rw [check_sync_iff]
    exact ⟨by rw [hpres 0 (by norm_num)]; exact hsync.1,
           fun i hi => by rw [hpres (1 + i) (by omega)]; exact hsync.2.1 i hi,
           by rw [hpres 11 (by norm_num)]; exact hsync.2.2⟩
  · rw [hpres 0x0F (by norm_num)]
    exact hmode
  · rw [check_subheader_iff]
    intro i hi
    rw [hpres (0x10 + i) (by omega), hpres (0x14 + i) (by omega)]
    exact hsub i hi
  · rw [check_edc_match_iff]
    intro k hk
    have hseg : seg (eccedc_generate s 2) 0x10 0x808 = seg s 0x10 0x808 :=
      seg_congr _ _ _ _ (by omega) (by omega) fun i _ hi2 => hpres i (by omega)
    rw [getD_drop, show 0x10 + (0x808 + k) = 0x818 + k from by omega, hseg]
    exact getD_eccedc_two_edc s k h hk
  · have hunf : eccedc_generate s 2 = ecc_generate
        (writeAt s 0x818 (edcLE (edc_compute 0 (seg s 0x10 0x808)))) true := by
      unfold eccedc_generate
      rw [if_neg (by norm_num), if_pos rfl]
    rw [hunf]
    exact ecc_generate_verifies _ (by rw [length_writeAt] <;> simp [h, length_edcLE]) true

theorem classify_generate_three (s : List Nat) (h : s.length = 2352)
    (hsync : check_sync_pattern s = true) (hmode : s.getD 0x0F 0 = 2)
    (hsub : check_subheader_dup (s.drop 0x10) = true)
    (hnot : ¬ (check_edc_match ((eccedc_generate s 3).drop 0x10)
        (edc_compute 0 (seg (eccedc_generate s 3) 0x10 0x808)) 0x808 = true ∧
      ecc_verify (eccedc_generate s 3) true = true)) :
    check_type_raw (eccedc_generate s 3) = 3 := by
  have hlen : (eccedc_generate s 3).length = 2352 := length_eccedc_generate s 3 h
  have hpres : ∀ i, i < 0x92C → (eccedc_generate s 3).getD i 0 = s.getD i 0 :=
    fun i hi => getD_eccedc_generate_three_low s i h hi
  rw [check_type_raw_three_iff _ (by omega)]
  rw [check_sync_iff] at hsync
  rw [check_subheader_iff] at hsub
  refine ⟨?_, ?_, ?_, hnot, ?_⟩
  · rw [check_sync_iff]
    exact ⟨by rw [hpres 0 (by norm_num)]; exact hsync.1,
           fun i hi => by rw [hpres (1 + i) (by omega)]; exact hsync.2.1 i hi,
           by rw [hpres 11 (by norm_num)]; exact hsync.2.2⟩
  · rw [hpres 0x0F (by norm_num)]
    exact hmode
  · rw [check_subheader_iff]
    intro i hi
    rw [hpres (0x10 + i) (by omega), hpres (0x14 + i) (by omega)]
    exact hsub i hi
  · rw [check_edc_match_iff]
    intro k hk
    have hseg : seg (eccedc_generate s 3) 0x10 0x91C = seg s 0x10 0x91C :=
      seg_congr _ _ _ _ (by omega) (by omega) fun i _ hi2 => hpres i (by omega)
    rw [getD_drop, show 0x10 + (0x91C + k) = 0x92C + k from by omega, hseg]
    exact getD_eccedc_three_edc s k h hk

theorem check_type_raw_mode2_nosub (w : List Nat) (h16 : 16 ≤ w.length)
    (hm : w.getD 0x0F 0 = 2) (hsub : check_subheader_dup (w.drop 0x10) = false) :
    check_type_raw w = 0 := by
  unfold check_type_raw check_type_raw_st
  rw [ecc_verify_st_eq w false h16, ecc_verify_st_eq w true h16]
  simp only []
  split_ifs <;> simp_all

/-- C7 (counterexample to the claim as stated): a 2352-byte buffer with a
valid sync pattern and mode byte 2 whose subheader bytes `0x10..0x13` are
not duplicated at `0x14..0x17`. After `eccedc_generate(sector, 2)` the
classifier does not return 2 (it returns 0): `eccedc_generate` never
duplicates the subheader, but `check_type_raw` requires the duplication
before it will consider any Mode 2 form. -/
theorem claim_C7_counterexample :
    cex_subheader_sector.length = 2352 ∧
    check_sync_pattern cex_subheader_sector = true ∧
    cex_subheader_sector.getD 0x0F 0 = 2 ∧
    check_type_raw (eccedc_generate cex_subheader_sector 2) ≠ 2 := by
  have hclen : cex_subheader_sector.length = 2352 := by
    simp only [cex_subheader_sector, sync_bytes, List.length_append,
      List.length_replicate, List.length_cons, List.length_nil]
  refine ⟨hclen, by decide, by decide, ?_⟩
  have h16 : 16 ≤ (eccedc_generate cex_subheader_sector 2).length := by
    rw [length_eccedc_generate _ _ hclen]
    norm_num
  have hm : (eccedc_generate cex_subheader_sector 2).getD 0x0F 0 = 2 := by
    rw [getD_eccedc_generate_two_low _ _ hclen (by norm_num)]
    decide
  have h1 : (eccedc_generate cex_subheader_sector 2).getD (0x10 + 0) 0 = 1 := by
    rw [show (0x10 + 0 : Nat) = 0x10 from rfl,
      getD_eccedc_generate_two_low _ _ hclen (by norm_num)]
    decide
  have h2 : (eccedc_generate cex_subheader_sector 2).getD (0x10 + 4) 0 = 0 := by
    rw [show (0x10 + 4 : Nat) = 0x14 from by norm_num,
      getD_eccedc_generate_two_low _ _ hclen (by norm_num)]
    decide
  have hsub : check_subheader_dup ((eccedc_generate cex_subheader_sector 2).drop 0x10)
      = false := by
    unfold check_subheader_dup
    simp only [getD_drop, h1, h2]
    simp
  rw [check_type_raw_mode2_nosub _ h16 hm hsub]
  norm_num

/-- C7 (amended): for every 2352-byte buffer with a valid sync pattern,
(a) if the mode byte is 1, classifying `eccedc_generate(s, 1)` returns 1;
(b) if the mode byte is 2 AND the subheader bytes `0x10..0x13` are
duplicated at `0x14..0x17`, classifying `eccedc_generate(s, 2)` returns 2;
(c) under the same subheader condition, classifying `eccedc_generate(s, 3)`
returns 3 excluding the pathological collision in which the generated
Form 2 sector also passes the Form 1 EDC and ECC checks. The subheader
duplication hypothesis in (b) and (c) is required: `eccedc_generate` does
not establish it, and without it the classifier returns 0 (literal). -/
theorem claim_C7_amended (s : List Nat) (h : s.length = 2352)
    (hsync : check_sync_pattern s = true) :
    (s.getD 0x0F 0 = 1 → check_type_raw (eccedc_generate s 1) = 1) ∧
    (s.getD 0x0F 0 = 2 → check_subheader_dup (s.drop 0x10) = true →
      check_type_raw (eccedc_generate s 2) = 2) ∧
    (s.getD 0x0F 0 = 2 → check_subheader_dup (s.drop 0x10) = true →
      ¬ (check_edc_match ((eccedc_generate s 3).drop 0x10)
            (edc_compute 0 (seg (eccedc_generate s 3) 0x10 0x808)) 0x808 = true ∧
          ecc_verify (eccedc_generate s 3) true = true) →
      check_type_raw (eccedc_generate s 3) = 3) :=
  ⟨fun hmode => classify_generate_one s h hsync hmode,
   fun hmode hsub => classify_generate_two s h hsync hmode hsub,
   fun hmode hsub hnot => classify_generate_three s h hsync hmode hsub hnot⟩

/-- C7 witness: the amended theorem applied to a concrete all-zero-payload
Mode 1 sector. -/
theorem claim_C7_witness :
    check_type_raw (eccedc_generate wit_mode1_sector 1) = 1 :=
  (claim_C7_amended wit_mode1_sector
    (by simp only [wit_mode1_sector, sync_bytes, List.length_append,
      List.length_replicate, List.length_cons, List.length_nil]) (by decide)).1 (by decide)

/-! ### Reconstructed-sector MSF bytes (C6) -/

theorem length_init_mode2_sector (n : Nat) : (init_mode2_sector n).length = 2352 := by
  have r0 : (List.replicate 2352 (0 : Nat)).length = 2352 := by rw [List.length_replicate]
  have i1 : (writeAt (List.replicate 2352 (0 : Nat)) 0 sync_bytes).length = 2352 := by
    rw [length_writeAt _ _ _ (by rw [r0]; decide), r0]
  have i2 : (writeAt (writeAt (List.replicate 2352 (0 : Nat)) 0 sync_bytes) 0x0C
      (sector_to_msf n)).length = 2352 := by
    rw [length_writeAt _ _ _ (by
      rw [i1, show (sector_to_msf n).length = 3 from rfl]; norm_num), i1]
  unfold init_mode2_sector
  rw [length_writeAt _ _ _ (by rw [i2]; norm_num), i2]

theorem length_mode2_buffer (n : Nat) (v : List Nat) (hv : v.length ≤ 2332) :
    (sector_copy_subheader (writeAt (init_mode2_sector n) 0x14 v)).length = 2352 := by
  have hw : (writeAt (init_mode2_sector n) 0x14 v).length = 2352 := by
    rw [length_writeAt _ _ _ (by rw [length_init_mode2_sector]; omega),
      length_init_mode2_sector]
  unfold sector_copy_subheader
  rw [length_writeAt _ _ _ (by
    rw [hw, length_seg _ _ _ (by rw [hw]; norm_num)]; norm_num), hw]

theorem msf_decoded_mode2 (n : Nat) (v : List Nat) (hv : v.length ≤ 2332) :
    seg (sector_copy_subheader (writeAt (init_mode2_sector n) 0x14 v)) 0x0C 3 =
      sector_to_msf n := by
  have r0 : (List.replicate 2352 (0 : Nat)).length = 2352 := by rw [List.length_replicate]
  have i1 : (writeAt (List.replicate 2352 (0 : Nat)) 0 sync_bytes).length = 2352 := by
    rw [length_writeAt _ _ _ (by rw [r0]; decide), r0]
  have i2 : (writeAt (writeAt (List.replicate 2352 (0 : Nat)) 0 sync_bytes) 0x0C
      (sector_to_msf n)).length = 2352 := by
    rw [length_writeAt _ _ _ (by
      rw [i1, show (sector_to_msf n).length = 3 from rfl]; norm_num), i1]
  have hw : (writeAt (init_mode2_sector n) 0x14 v).length = 2352 := by
    rw [length_writeAt _ _ _ (by rw [length_init_mode2_sector]; omega),
      length_init_mode2_sector]
  have hseg4 : (seg (writeAt (init_mode2_sector n) 0x14 v) 0x14 4).length = 4 :=
    length_seg _ _ _ (by rw [hw]; norm_num)
  have hsc := length_mode2_buffer n v hv
  apply ext_getD
  · rw [length_seg _ _ _ (by rw [hsc]; norm_num), show (sector_to_msf n).length = 3 from rfl]
  · intro i hi
    have hi3 : i < 3 := by rwa [length_seg _ _ _ (by rw [hsc]; norm_num)] at hi
    rw [getD_seg _ _ _ _ _ hi3]
    unfold sector_copy_subheader
    rw [getD_writeAt _ _ _ _ (by rw [hseg4, hw]; norm_num), if_neg (by omega)]
    rw [getD_writeAt _ _ _ _ (by rw [length_init_mode2_sector]; omega), if_neg (by omega)]
    unfold init_mode2_sector
    rw [getD_writeAt _ _ _ _ (by rw [i2]; norm_num), if_neg (by omega)]
    rw [getD_writeAt _ _ _ _ (by
      rw [i1, show (sector_to_msf n).length = 3 from rfl]; norm_num),
      if_pos ⟨by omega, by rw [show (sector_to_msf n).length = 3 from rfl]; omega⟩,
      Nat.add_sub_cancel_left]

theorem length_mode1_buffer (t v : List Nat) (ht : t.length ≤ 3) (hv : v.length ≤ 2336) :
    (writeAt (writeAt (writeAt (writeAt (List.replicate 2352 0) 0 sync_bytes)
      0x0F [0x01]) 0x0C t) 0x10 v).length = 2352 := by
  have r0 : (List.replicate 2352 (0 : Nat)).length = 2352 := by rw [List.length_replicate]
  have i1 : (writeAt (List.replicate 2352 (0 : Nat)) 0 sync_bytes).length = 2352 := by
    rw [length_writeAt _ _ _ (by rw [r0]; decide), r0]
  have i2 : (writeAt (writeAt (List.replicate 2352 (0 : Nat)) 0 sync_bytes) 0x0F
      [0x01]).length = 2352 := by
    rw [length_writeAt _ _ _ (by rw [i1]; decide), i1]
  have i3 : (writeAt (writeAt (writeAt (List.replicate 2352 (0 : Nat)) 0 sync_bytes) 0x0F
      [0x01]) 0x0C t).length = 2352 := by
    rw [length_writeAt _ _ _ (by rw [i2]; omega), i2]
  rw [length_writeAt _ _ _ (by rw [i3]; omega), i3]

theorem msf_decoded_mode1 (t v : List Nat) (ht : t.length = 3) (hv : v.length ≤ 2336) :
    seg (writeAt (writeAt (writeAt (writeAt (List.replicate 2352 0) 0 sync_bytes)
      0x0F [0x01]) 0x0C t) 0x10 v) 0x0C 3 = t := by
  have r0 : (List.replicate 2352 (0 : Nat)).length = 2352 := by rw [List.length_replicate]
  have i1 : (writeAt (List.replicate 2352 (0 : Nat)) 0 sync_bytes).length = 2352 := by
    rw [length_writeAt _ _ _ (by rw [r0]; decide), r0]
  have i2 : (writeAt (writeAt (List.replicate 2352 (0 : Nat)) 0 sync_bytes) 0x0F
      [0x01]).length = 2352 := by
    rw [length_writeAt _ _ _ (by rw [i1]; decide), i1]
  have i3 : (writeAt (writeAt (writeAt (List.replicate 2352 (0 : Nat)) 0 sync_bytes) 0x0F
      [0x01]) 0x0C t).length = 2352 := by
    rw [length_writeAt _ _ _ (by rw [i2]; omega), i2]
  have i4 := length_mode1_buffer t v (by omega) hv
  apply ext_getD
  · rw [length_seg _ _ _ (by rw [i4]; norm_num), ht]
  · intro i hi
    have hi3 : i < 3 := by rwa [length_seg _ _ _ (by rw [i4]; norm_num)] at hi
    rw [getD_seg _ _ _ _ _ hi3]
    rw [getD_writeAt _ _ _ _ (by rw [i3]; omega), if_neg (by omega)]
    rw [getD_writeAt _ _ _ _ (by rw [i2]; omega),
      if_pos ⟨by omega, by rw [ht]; omega⟩, Nat.add_sub_cancel_left]

theorem seg_msf_eccedc (s : List Nat) (ty : Nat) (h : s.length = 2352)
    (hty : ty = 1 ∨ ty = 2 ∨ ty = 3) :
    seg (eccedc_generate s ty) 0x0C 3 = seg s 0x0C 3 := by
  apply seg_congr _ _ _ _ (by rw [length_eccedc_generate _ _ h]; norm_num)
    (by rw [h]; norm_num)
  intro i hi1 hi2
  rcases hty with h1 | h2 | h3
  · subst h1; exact getD_eccedc_generate_one_low s i h (by omega)
  · subst h2; exact getD_eccedc_generate_two_low s i h (by omega)
  · subst h3; exact getD_eccedc_generate_three_low s i h (by omega)

/-- One record-loop step on a non-sentinel sector record. -/
theorem unecm_loop_sector_step (fuel : Nat) (stream rest out secs rest2 : List Nat)
    (edc ty num bw e2 bw2 : Nat)
    (hr : read_type_count stream = .ok (ty, num, rest)) (hnum : num ≠ 0xFFFFFFFF)
    (hsz : num + 1 < 0x80000000) (hty : ty ≠ 0)
    (hs : unecm_sectors (num + 1) ty rest edc bw = .ok (secs, e2, bw2, rest2)) :
    unecm_loop (fuel + 1) stream edc out bw = unecm_loop fuel rest2 e2 (out ++ secs) bw2 := by
  conv_lhs => rw [unecm_loop]
  rw [hr]
  simp only [hnum, if_false, if_neg (by omega : ¬ 0x80000000 ≤ num + 1), hty]
  rw [hs]

/-- One record-loop step on the end-of-records sentinel with a matching
trailing EDC. -/
theorem unecm_loop_sentinel_step (fuel : Nat) (stream rest out : List Nat)
    (edc ty bw : Nat)
    (hr : read_type_count stream = .ok (ty, 0xFFFFFFFF, rest))
    (h4 : ¬ rest.length < 4) (htake : rest.take 4 = edcLE edc) :
    unecm_loop (fuel + 1) stream edc out bw = .ok out := by
  conv_lhs => rw [unecm_loop]
  rw [hr]
  simp only []
  simp only [if_true]
  rw [if_neg h4, if_pos htake]

/-- C6 (amended): the decoder derives the MSF at offsets 12..14 from the
decode-time output position only for Mode 2 sectors; a reconstructed
Mode 1 sector instead carries at 12..14 the 3 address bytes stored in the
ECM stream.  Concretely, whenever `decode_mode2_form1_sector` or
`decode_mode2_form2_sector` succeeds with `bytes_written = bw`, the
reconstructed sector's bytes 12..14 are `sector_to_msf (bw / 2352)` (the
packed BCD of ordinal + 150); whenever `decode_mode1_sector` succeeds, its
bytes 12..14 are the first 3 bytes of the record's stream data. -/
theorem claim_C6_amended (stream : List Nat) (bw edc : Nat) :
    ((decode_mode2_form1_sector stream bw edc).elim True fun x =>
      seg x.1 0x0C 3 = sector_to_msf (bw / 2352)) ∧
    ((decode_mode2_form2_sector stream bw edc).elim True fun x =>
      seg x.1 0x0C 3 = sector_to_msf (bw / 2352)) ∧
    ((decode_mode1_sector stream edc).elim True fun x =>
      seg x.1 0x0C 3 = stream.take 3) := by
  refine ⟨?_, ?_, ?_⟩
  · unfold decode_mode2_form1_sector
    split_ifs with hl
    · exact trivial
    · simp only []
      simp only [Option.elim]
      have hv : (stream.take 0x804).length ≤ 2332 := by rw [List.length_take]; omega
      rw [seg_msf_eccedc _ 2 (length_mode2_buffer _ _ hv) (Or.inr (Or.inl rfl)),
        msf_decoded_mode2 _ _ hv]
  · unfold decode_mode2_form2_sector
    split_ifs with hl
    · exact trivial
    · simp only []
      simp only [Option.elim]
      have hv : (stream.take 0x918).length ≤ 2332 := by rw [List.length_take]; omega
      rw [seg_msf_eccedc _ 3 (length_mode2_buffer _ _ hv) (Or.inr (Or.inr rfl)),
        msf_decoded_mode2 _ _ hv]
  · unfold decode_mode1_sector
    split_ifs with hl
    · exact trivial
    · simp only []
      simp only [Option.elim]
      have ht : (stream.take 3).length = 3 := by rw [List.length_take]; omega
      have hv : (seg stream 3 2048).length ≤ 2336 := by
        simp only [seg, List.length_take, List.length_drop]; omega
      rw [seg_msf_eccedc _ 1 (length_mode1_buffer _ _ (by omega) hv) (Or.inl rfl),
        msf_decoded_mode1 _ _ ht hv]

/-- C6 (counterexample to the claim as stated): a complete ECM stream that
the decoder accepts, whose single record is a Mode 1 sector with stored
address bytes `09 09 09`.  The reconstructed sector carries `09 09 09` at
offsets 12..14, not the packed-BCD MSF of (ordinal + 150) = `sector_to_msf 0`
that the position rule prescribes: Mode 1 address bytes come from the
stream, and the claim's "this holds for Mode 1 as well" is false. -/
theorem claim_C6_counterexample :
    unecmify cex6_stream = .ok cex6_tail_sector ∧
    seg cex6_tail_sector 0x0C 3 = [9, 9, 9] ∧
    sector_to_msf 0 ≠ [9, 9, 9] := by
  have hrlen : cex6_rest.length = 2060 := by
    simp only [cex6_rest, List.length_append, List.length_cons, List.length_nil,
      List.length_replicate, length_edcLE]
  have hlen : cex6_stream.length = 2065 := by
    simp only [cex6_stream, ecm_magic, List.length_append, List.length_cons,
      List.length_nil]
    omega
  have htk : cex6_rest.take 3 = [9, 9, 9] := by
    simp only [cex6_rest, List.append_assoc]
    exact List.take_left' rfl
  have hsg : seg cex6_rest 3 2048 = List.replicate 2048 0 := by
    simp only [cex6_rest, List.append_assoc, seg]
    rw [List.drop_left' (show ([9, 9, 9] : List Nat).length = 3 from rfl)]
    exact List.take_left' (by rw [List.length_replicate])
  have hdp : cex6_rest.drop 2051 =
      [0xFC, 0xFF, 0xFF, 0xFF, 0x3F] ++
        edcLE (edc_compute 0 (seg cex6_tail_sector 0 2352)) := by
    simp only [cex6_rest]
    exact List.drop_left' (by
      simp only [List.length_append, List.length_cons, List.length_nil,
        List.length_replicate])
  have hdec : decode_mode1_sector cex6_rest 0 =
      some (cex6_tail_sector, edc_compute 0 (seg cex6_tail_sector 0 2352),
        [0xFC, 0xFF, 0xFF, 0xFF, 0x3F] ++
          edcLE (edc_compute 0 (seg cex6_tail_sector 0 2352))) := by
    unfold decode_mode1_sector
    rw [if_neg (by rw [hrlen]; norm_num)]
    simp only []
    rw [htk, hsg, hdp]
    rfl
  have hsec : unecm_sectors (0 + 1) 1 cex6_rest 0 0 =
      .ok (cex6_tail_sector ++ [], edc_compute 0 (seg cex6_tail_sector 0 2352), 0 + 2352,
        [0xFC, 0xFF, 0xFF, 0xFF, 0x3F] ++
          edcLE (edc_compute 0 (seg cex6_tail_sector 0 2352))) := by
    conv_lhs => rw [unecm_sectors]
    simp only []
    rw [hdec]
    rfl
  have hone : read_type_count (1 :: cex6_rest) = .ok (1, 0, cex6_rest) := rfl
  have hsent : read_type_count ([0xFC, 0xFF, 0xFF, 0xFF, 0x3F] ++
      edcLE (edc_compute 0 (seg cex6_tail_sector 0 2352))) =
      .ok (0, 0xFFFFFFFF, edcLE (edc_compute 0 (seg cex6_tail_sector 0 2352))) := rfl
  have htk4 : (edcLE (edc_compute 0 (seg cex6_tail_sector 0 2352))).take 4 =
      edcLE (edc_compute 0 (seg cex6_tail_sector 0 2352)) := rfl
  refine ⟨?_, ?_, by decide⟩
  · unfold unecmify
    rw [hlen]
    rw [if_neg (by norm_num)]
    rw [if_neg (not_not_intro (show cex6_stream.take 4 = ecm_magic by
      simp only [cex6_stream]; exact List.take_left' rfl))]
    rw [show cex6_stream.drop 4 = 1 :: cex6_rest by
      simp only [cex6_stream]; exact List.drop_left' rfl]
    rw [unecm_loop_sector_step 2065 (1 :: cex6_rest) cex6_rest []
      (cex6_tail_sector ++ [])
      ([0xFC, 0xFF, 0xFF, 0xFF, 0x3F] ++
        edcLE (edc_compute 0 (seg cex6_tail_sector 0 2352)))
      0 1 0 0 (edc_compute 0 (seg cex6_tail_sector 0 2352)) (0 + 2352) hone
      (by norm_num) (by norm_num) (by norm_num) hsec]
    rw [show (2065 : Nat) = 2064 + 1 from rfl]
    rw [unecm_loop_sentinel_step 2064
      ([0xFC, 0xFF, 0xFF, 0xFF, 0x3F] ++
        edcLE (edc_compute 0 (seg cex6_tail_sector 0 2352)))
      (edcLE (edc_compute 0 (seg cex6_tail_sector 0 2352)))
      ([] ++ (cex6_tail_sector ++ []))
      (edc_compute 0 (seg cex6_tail_sector 0 2352)) 0 (0 + 2352) hsent
      (by rw [length_edcLE]; norm_num) htk4]
    rw [List.nil_append, List.append_nil]
  · simp only [cex6_tail_sector]
    rw [seg_msf_eccedc _ 1 (length_mode1_buffer [9, 9, 9] (List.replicate 2048 0)
        (by decide) (by rw [List.length_replicate]; norm_num)) (Or.inl rfl)]
    rw [msf_decoded_mode1 [9, 9, 9] (List.replicate 2048 0) rfl
      (by rw [List.length_replicate]; norm_num)]

/-! ### The image-wide EDC threaded by the encoder (C2) -/

theorem seg_all_of_length (l : List Nat) (n : Nat) (h : l.length = n) : seg l 0 n = l := by
  subst h
  exact seg_all l

theorem sector_run_go_edc (k : Nat) : ∀ (ty : Nat) (b : List Nat) (edc : Nat),
    (sector_run_go k ty b edc).1 = edc_compute edc (edc_covered_go k ty b) := by
  induction k with
  | zero => intro ty b edc; rfl
  | succ n ih =>
      intro ty b edc
      simp only [sector_run_go]
      rw [ih]
      conv_rhs => rw [edc_covered_go]
      rw [edc_compute_append]
      congr 1
      unfold write_sector_data
      split_ifs <;> rfl

theorem runs_encode_edc (rs : List (Nat × List Nat)) : ∀ edc : Nat,
    (runs_encode edc rs).1 = edc_compute edc (runs_covered rs) := by
  induction rs with
  | nil => intro edc; rfl
  | cons p rs ih =>
      intro edc
      rcases p with ⟨t, b⟩
      simp only [runs_encode, runs_covered]
      rw [ih, edc_compute_append]
      congr 1
      unfold flush_sector_run run_covered
      split_ifs
      · rfl
      · exact sector_run_go_edc _ _ _ _

theorem edc_covered_go_one (c : Nat) : ∀ b : List Nat, b.length = 2352 * c →
    edc_covered_go c 1 b = b := by
  induction c with
  | zero =>
      intro b hb
      have hb0 : b = [] := List.eq_nil_of_length_eq_zero (by omega)
      subst hb0
      rfl
  | succ n ih =>
      intro b hb
      rw [edc_covered_go, if_pos rfl]
      have ht : (b.take 2352).length = 2352 := by rw [List.length_take]; omega
      rw [seg_all_of_length _ _ ht, ih (b.drop 2352) (by rw [List.length_drop]; omega)]
      exact List.take_append_drop 2352 b

/-! ### Structure of the analysis pass and of run coalescing (C1, C2) -/

theorem ecm_literal_step_pos (n : Nat) : 1 ≤ ecm_literal_step n := by
  unfold ecm_literal_step
  split_ifs <;> omega

theorem ecm_literal_step_le (n : Nat) (h : 1 ≤ n) : ecm_literal_step n ≤ n := by
  unfold ecm_literal_step
  split_ifs <;> omega

theorem sector_size_for_type_pos (t : Nat) : 1 ≤ sector_size_for_type t := by
  unfold sector_size_for_type
  split_ifs <;> omega

theorem sector_size_for_type_le (t : Nat) : sector_size_for_type t ≤ 2352 := by
  unfold sector_size_for_type
  split_ifs <;> omega

theorem sector_size_for_type_eq (t : Nat) (h : t < 4) : sector_size_for_type t = 2352 := by
  unfold sector_size_for_type
  rw [if_pos (by omega)]

theorem chunk_analysis_go_bytes (fuel : Nat) : ∀ l : List Nat, l.length ≤ fuel →
    chunks_bytes (chunk_analysis_go fuel l) = l := by
  induction fuel with
  | zero =>
      intro l hl
      have h0 : l = [] := List.eq_nil_of_length_eq_zero (by omega)
      subst h0
      rfl
  | succ n ih =>
      intro l hl
      by_cases hnil : l = []
      · subst hnil
        rw [chunk_analysis_go, if_pos rfl]
        rfl
      · have hl1 : 1 ≤ l.length := by
          rcases Nat.eq_zero_or_pos l.length with h0 | h1
          · exact absurd (List.eq_nil_of_length_eq_zero h0) hnil
          · exact h1
        rw [chunk_analysis_go, if_neg hnil]
        by_cases hsmall : l.length < 2352
        · simp only [if_pos hsmall]
          simp only [if_true]
          rw [chunks_bytes, ih _ (by
            rw [List.length_drop]
            have := ecm_literal_step_pos l.length
            omega)]
          exact List.take_append_drop _ l
        · simp only [if_neg hsmall]
          by_cases hc : check_type_raw (l.take 2352) = 0
          · simp only [hc]
            simp only [if_true]
            rw [chunks_bytes, ih _ (by
              rw [List.length_drop]
              have := ecm_literal_step_pos l.length
              omega)]
            exact List.take_append_drop _ l
          · rw [if_neg hc]
            have h1 := sector_size_for_type_pos (check_type_raw (l.take 2352))
            rw [chunks_bytes, ih _ (by rw [List.length_drop]; omega)]
            exact List.take_append_drop _ l

theorem take_ne_nil_of_pos (l : List Nat) (n : Nat) (hn : 1 ≤ n) (hl : 1 ≤ l.length) :
    l.take n ≠ [] := by
  intro hcon
  have := congrArg List.length hcon
  rw [List.length_take] at this
  simp only [List.length_nil] at this
  omega

theorem chunk_analysis_go_ok (fuel : Nat) : ∀ l : List Nat, l.length ≤ fuel →
    ∀ p ∈ chunk_analysis_go fuel l,
      (p.1 = 0 ∧ p.2 ≠ []) ∨
      (p.1 ≠ 0 ∧ p.2.length = 2352 ∧ check_type_raw p.2 = p.1) := by
  induction fuel with
  | zero =>
      intro l hl p hp
      have h0 : l = [] := List.eq_nil_of_length_eq_zero (by omega)
      subst h0
      exact absurd hp (List.not_mem_nil p)
  | succ n ih =>
      intro l hl p hp
      by_cases hnil : l = []
      · subst hnil
        rw [chunk_analysis_go, if_pos rfl] at hp
        exact absurd hp (List.not_mem_nil p)
      · have hl1 : 1 ≤ l.length := by
          rcases Nat.eq_zero_or_pos l.length with h0 | h1
          · exact absurd (List.eq_nil_of_length_eq_zero h0) hnil
          · exact h1
        rw [chunk_analysis_go, if_neg hnil] at hp
        by_cases hsmall : l.length < 2352
        · simp only [if_pos hsmall] at hp
          simp only [if_true] at hp
          rcases List.mem_cons.mp hp with rfl | htail
          · exact Or.inl ⟨rfl, take_ne_nil_of_pos _ _ (ecm_literal_step_pos _) hl1⟩
          · exact ih _ (by
              rw [List.length_drop]
              have := ecm_literal_step_pos l.length
              omega) p htail
        · simp only [if_neg hsmall] at hp
          by_cases hc : check_type_raw (l.take 2352) = 0
          · simp only [hc] at hp
            simp only [if_true] at hp
            rcases List.mem_cons.mp hp with rfl | htail
            · exact Or.inl ⟨rfl, take_ne_nil_of_pos _ _ (ecm_literal_step_pos _) hl1⟩
            · exact ih _ (by
                rw [List.length_drop]
                have := ecm_literal_step_pos l.length
                omega) p htail
          · rw [if_neg hc] at hp
            have hlt4 : check_type_raw (l.take 2352) < 4 := by
              apply check_type_raw_lt
              rw [List.length_take]
              omega
            rw [sector_size_for_type_eq _ hlt4] at hp
            rcases List.mem_cons.mp hp with rfl | htail
            · refine Or.inr ⟨hc, ?_, ?_⟩
              · rw [List.length_take]
                omega
              · rfl
            · exact ih _ (by rw [List.length_drop]; omega) p htail

theorem coalesce_cons_nil (t : Nat) (b : List Nat) (rest : List (Nat × List Nat))
    (hco : coalesce rest = []) : coalesce ((t, b) :: rest) = [(t, b)] := by
  rw [coalesce, hco]

theorem coalesce_cons_cons (t t2 : Nat) (b b2 : List Nat)
    (rest rs : List (Nat × List Nat)) (hco : coalesce rest = (t2, b2) :: rs) :
    coalesce ((t, b) :: rest) =
      if t = t2 then (t, b ++ b2) :: rs else (t, b) :: (t2, b2) :: rs := by
  rw [coalesce, hco]

theorem chunks_bytes_coalesce (cs : List (Nat × List Nat)) :
    chunks_bytes (coalesce cs) = chunks_bytes cs := by
  induction cs with
  | nil => rfl
  | cons p rest ih =>
      rcases p with ⟨t, b⟩
      cases hco : coalesce rest with
      | nil =>
          rw [hco] at ih
          rw [coalesce_cons_nil t b rest hco, chunks_bytes, chunks_bytes, chunks_bytes,
            ← ih]
          rfl
      | cons q rs =>
          rcases q with ⟨t2, b2⟩
          rw [hco] at ih
          rw [coalesce_cons_cons t t2 b b2 rest rs hco]
          by_cases ht : t = t2
          · rw [if_pos ht, chunks_bytes, chunks_bytes, ← ih, chunks_bytes,
              List.append_assoc]
          · rw [if_neg ht, chunks_bytes, ih, chunks_bytes]

theorem seg_append_right (b b2 : List Nat) (off len : Nat) (h : b.length ≤ off) :
    seg (b ++ b2) off len = seg b2 (off - b.length) len := by
  apply ext_getD
  · simp only [seg, List.length_take, List.length_drop, List.length_append]
    omega
  · intro i hi
    have hlen : i < len := by
      simp only [seg, List.length_take, List.length_drop, List.length_append] at hi
      omega
    rw [getD_seg _ _ _ _ _ hlen, getD_seg _ _ _ _ _ hlen,
      getD_append_right _ _ _ _ (by omega)]
    congr 1
    omega

theorem run_ok_merge (t : Nat) (b b2 : List Nat)
    (h1 : (t = 0 ∧ b ≠ []) ∨ (t = 1 ∧ b.length = 2352 ∧ check_type_raw b = 1))
    (h2 : run_ok (t, b2)) : run_ok (t, b ++ b2) := by
  rcases h1 with ⟨ht, hb⟩ | ⟨ht, hlen, hchk⟩
  · subst ht
    left
    exact ⟨rfl, by simp [hb]⟩
  · subst ht
    rcases h2 with ⟨hcon, _⟩ | ⟨_, _, hmod2, hwin2⟩
    · exact absurd hcon (by norm_num)
    · have hmod2' : b2.length % 2352 = 0 := hmod2
      have hwin2' : ∀ j, j * 2352 < b2.length →
          check_type_raw (seg b2 (j * 2352) 2352) = 1 := hwin2
      right
      refine ⟨rfl, by simp; intro hcon; rw [hcon] at hlen; simp at hlen, ?_, ?_⟩
      · simp only [List.length_append]
        omega
      · intro j hj
        rcases Nat.eq_zero_or_pos j with rfl | hjpos
        · rw [show (0 : Nat) * 2352 = 0 from rfl]
          have : seg (b ++ b2) 0 2352 = b := by
            rw [seg, List.drop_zero, List.take_left' hlen]
          rw [this]
          exact hchk
        · have hoff : b.length ≤ j * 2352 := by
            rw [hlen]
            calc (2352 : Nat) = 1 * 2352 := by omega
            _ ≤ j * 2352 := Nat.mul_le_mul_right _ hjpos
          rw [seg_append_right _ _ _ _ hoff]
          have hj2 : (j - 1) * 2352 = j * 2352 - b.length := by
            rw [hlen, Nat.sub_one_mul]
          rw [← hj2]
          apply hwin2'
          simp only [List.length_append] at hj
          omega

theorem coalesce_ok (cs : List (Nat × List Nat))
    (h : ∀ p ∈ cs, (p.1 = 0 ∧ p.2 ≠ []) ∨
      (p.1 = 1 ∧ p.2.length = 2352 ∧ check_type_raw p.2 = 1)) :
    ∀ p ∈ coalesce cs, run_ok p := by
  induction cs with
  | nil => intro p hp; exact absurd hp (List.not_mem_nil p)
  | cons q rest ih =>
      rcases q with ⟨t, b⟩
      have hq := h (t, b) (List.mem_cons_self _ _)
      have hrest := fun p hp => h p (List.mem_cons_of_mem _ hp)
      have hsingle : run_ok (t, b) := by
        rcases hq with ⟨ht, hb⟩ | ⟨ht, hlen, hchk⟩
        · exact Or.inl ⟨ht, hb⟩
        · refine Or.inr ⟨ht, ?_, by rw [hlen], ?_⟩
          · intro hcon
            rw [hcon] at hlen
            simp at hlen
          · intro j hj
            have hj0 : j = 0 := by
              rw [hlen] at hj
              by_contra hne
              have : 1 ≤ j := by omega
              have : 2352 ≤ j * 2352 := by
                calc (2352 : Nat) = 1 * 2352 := by omega
                _ ≤ j * 2352 := Nat.mul_le_mul_right _ this
              omega
            subst hj0
            rw [show (0 : Nat) * 2352 = 0 from rfl, seg_all_of_length _ _ hlen]
            exact hchk
      intro p hp
      cases hco : coalesce rest with
      | nil =>
          rw [coalesce_cons_nil t b rest hco] at hp
          rcases List.mem_cons.mp hp with rfl | htail
          · exact hsingle
          · exact absurd htail (List.not_mem_nil p)
      | cons r rs =>
          rcases r with ⟨t2, b2⟩
          rw [coalesce_cons_cons t t2 b b2 rest rs hco] at hp
          have hr2 : run_ok (t2, b2) := ih hrest (t2, b2) (by rw [hco]; exact List.mem_cons_self _ _)
          by_cases ht : t = t2
          · rw [if_pos ht] at hp
            rcases List.mem_cons.mp hp with rfl | htail
            · subst ht
              exact run_ok_merge t b b2 (by
                rcases hq with ⟨h1, h2⟩ | ⟨h1, h2, h3⟩
                · exact Or.inl ⟨h1, h2⟩
                · exact Or.inr ⟨h1, h2, h3⟩) hr2
            · exact ih hrest p (by rw [hco]; exact List.mem_cons_of_mem _ htail)
          · rw [if_neg ht] at hp
            rcases List.mem_cons.mp hp with rfl | htail
            · exact hsingle
            · exact ih hrest p (by rw [hco]; exact htail)

/-! ### The literal-record copy loop: net effect (C1) -/

theorem literal_copy_go_eq (fuel : Nat) : ∀ (n : Nat) (stream : List Nat) (edc : Nat),
    n ≤ fuel → n ≤ stream.length →
    literal_copy_go fuel n stream edc =
      some (stream.take n, edc_compute edc (stream.take n), stream.drop n) := by
  induction fuel with
  | zero =>
      intro n stream edc hf hs
      have h0 : n = 0 := by omega
      subst h0
      rfl
  | succ m ih =>
      intro n stream edc hf hs
      rcases n with _ | k
      · rfl
      · rw [literal_copy_go]
        set b := if 2352 < k + 1 then 2352 else k + 1 with hbdef
        have hb1 : 1 ≤ b := by rw [hbdef]; split_ifs <;> omega
        have hble : b ≤ k + 1 := by rw [hbdef]; split_ifs <;> omega
        rw [if_neg (show ¬ stream.length < b by omega)]
        rw [ih (k + 1 - b) (stream.drop b) (edc_compute edc (stream.take b)) (by omega)
          (by rw [List.length_drop]; omega)]
        have h1 : stream.take b ++ (stream.drop b).take (k + 1 - b) = stream.take (k + 1) := by
          conv_rhs => rw [show k + 1 = b + (k + 1 - b) from by omega, List.take_add]
        have h2 : (stream.drop b).drop (k + 1 - b) = stream.drop (k + 1) := by
          rw [List.drop_drop]
          congr 1
          omega
        have h3 : edc_compute (edc_compute edc (stream.take b))
            ((stream.drop b).take (k + 1 - b)) = edc_compute edc (stream.take (k + 1)) := by
          rw [← edc_compute_append, h1]
        simp only [Option.map_some']
        rw [h1, h2, h3]

/-- One record-loop step on a literal record. -/
theorem unecm_loop_literal_step (fuel : Nat) (stream rest out bytes rest2 : List Nat)
    (edc num bw e2 : Nat)
    (hr : read_type_count stream = .ok (0, num, rest)) (hnum : num ≠ 0xFFFFFFFF)
    (hsz : num + 1 < 0x80000000)
    (hl : literal_copy_go (num + 1) (num + 1) rest edc = some (bytes, e2, rest2)) :
    unecm_loop (fuel + 1) stream edc out bw =
      unecm_loop fuel rest2 e2 (out ++ bytes) (bw + (num + 1)) := by
  conv_lhs => rw [unecm_loop]
  rw [hr]
  simp only [hnum, if_false, if_neg (by omega : ¬ 0x80000000 ≤ num + 1), if_true]
  rw [hl]

/-! ### The decoder reconstructs a classified Mode 1 sector exactly (C1) -/

/-- Regenerating ECC over a buffer that agrees with a verified sector below
the parity region reproduces the sector: the P block depends only on bytes
`[12, 0x81C)`, and the Q block only on bytes `[12, 0x8C8)` including the
freshly written P parity. -/
theorem ecc_generate_eq_of_verify (w B : List Nat) (hw : w.length = 2352)
    (hB : B.length = 2352) (hagree : ∀ i, i < 0x81C → B.getD i 0 = w.getD i 0)
    (hv : ecc_verify w false = true) : ecc_generate B false = w := by
  rcases (ecc_verify_false_iff w).1 hv with ⟨hvP, hvQ⟩
  have hP : (ecc_block (B.drop 12) 86 24 2 86).length = 172 := by rw [length_ecc_block]
  set P := ecc_block (B.drop 12) 86 24 2 86 with hPdef
  have hPw : P = ecc_block (w.drop 12) 86 24 2 86 := by
    rw [hPdef]
    exact ecc_block_congr _ _ 86 24 2 86 (by norm_num) ecc_p_start
      fun i hi => drop_congr_getD _ _ 12 2064 i hi fun j hj1 hj2 => hagree j (by omega)
  have hPseg : P = seg w 0x81C 172 := by rw [hPw, ← hvP]
  set s1 := writeAt B 0x81C P with hs1
  have hs1len : s1.length = 2352 := by rw [hs1, length_writeAt] <;> omega
  have hag1 : ∀ i, i < 0x8C8 → s1.getD i 0 = w.getD i 0 := by
    intro i hi
    rw [hs1, getD_writeAt _ _ _ _ (by omega)]
    split_ifs with hin
    · rw [hPseg, getD_seg _ _ _ _ _ (by rw [hP] at hin; omega),
        show 0x81C + (i - 0x81C) = i from by omega]
    · exact hagree i (by rw [hP] at hin; omega)
  have hQ : (ecc_block (s1.drop 12) 52 43 86 88).length = 104 := by rw [length_ecc_block]
  set Q := ecc_block (s1.drop 12) 52 43 86 88 with hQdef
  have hQw : Q = ecc_block (w.drop 12) 52 43 86 88 := by
    rw [hQdef]
    exact ecc_block_congr _ _ 52 43 86 88 (by norm_num) ecc_q_start
      fun i hi => drop_congr_getD _ _ 12 2236 i hi fun j hj1 hj2 => hag1 j (by omega)
  have hQseg : Q = seg w 0x8C8 104 := by rw [hQw, ← hvQ]
  have hgeneq : ecc_generate B false = writeAt s1 0x8C8 Q := by
    rw [hs1, hPdef, hQdef]
    rfl
  rw [hgeneq]
  apply ext_getD
  · rw [length_writeAt _ _ _ (by rw [hQ, hs1len]), hs1len, hw]
  · intro i hi
    have hi2352 : i < 2352 := by
      rwa [length_writeAt _ _ _ (by rw [hQ, hs1len]), hs1len] at hi
    rw [getD_writeAt _ _ _ _ (by rw [hQ, hs1len])]
    split_ifs with hin
    · rw [hQseg, getD_seg _ _ _ _ _ (by rw [hQ] at hin; omega),
        show 0x8C8 + (i - 0x8C8) = i from by omega]
    · exact hag1 i (by rw [hQ] at hin; omega)

/-- The decoder's Mode 1 path applied to the encoder's stored payload of a
sector the classifier accepted as Mode 1 reproduces the sector exactly and
chains the image EDC over all its 2352 bytes. -/
theorem decode_mode1_reconstructs (w : List Nat) (hw : w.length = 2352)
    (hc : check_type_raw w = 1) (rest : List Nat) (edc : Nat) :
    decode_mode1_sector ((seg w 0x0C 3 ++ seg w 0x10 2048) ++ rest) edc =
      some (w, edc_compute edc w, rest) := by
  have h3 : (seg w 0x0C 3).length = 3 := length_seg _ _ _ (by omega)
  have h2048 : (seg w 0x10 2048).length = 2048 := length_seg _ _ _ (by omega)
  rcases (check_type_raw_one_iff w (by omega)).1 hc with ⟨hsync, hmode, hres, hedc, hecc⟩
  rw [check_sync_iff] at hsync
  rw [check_reserved_iff] at hres
  rw [check_edc_match_iff] at hedc
  have hsync' : ∀ i, i < 12 → w.getD i 0 = sync_bytes.getD i 0 := by
    intro i hi
    interval_cases i
    · exact hsync.1
    · exact hsync.2.1 0 (by norm_num)
    · exact hsync.2.1 1 (by norm_num)
    · exact hsync.2.1 2 (by norm_num)
    · exact hsync.2.1 3 (by norm_num)
    · exact hsync.2.1 4 (by norm_num)
    · exact hsync.2.1 5 (by norm_num)
    · exact hsync.2.1 6 (by norm_num)
    · exact hsync.2.1 7 (by norm_num)
    · exact hsync.2.1 8 (by norm_num)
    · exact hsync.2.1 9 (by norm_num)
    · exact hsync.2.2
  have hslen : ((seg w 0x0C 3 ++ seg w 0x10 2048) ++ rest).length = 2051 + rest.length := by
    simp only [List.length_append]
    omega
  have htk : ((seg w 0x0C 3 ++ seg w 0x10 2048) ++ rest).take 3 = seg w 0x0C 3 := by
    rw [List.append_assoc]
    exact List.take_left' h3
  have hsg : seg ((seg w 0x0C 3 ++ seg w 0x10 2048) ++ rest) 3 2048 = seg w 0x10 2048 := by
    rw [List.append_assoc, seg, List.drop_left' h3]
    exact List.take_left' h2048
  have hdp : ((seg w 0x0C 3 ++ seg w 0x10 2048) ++ rest).drop 2051 = rest :=
    List.drop_left' (by simp only [List.length_append]; omega)
  have r0 : (List.replicate 2352 (0 : Nat)).length = 2352 := by rw [List.length_replicate]
  have i1 : (writeAt (List.replicate 2352 (0 : Nat)) 0 sync_bytes).length = 2352 := by
    rw [length_writeAt _ _ _ (by rw [r0]; decide), r0]
  have i2 : (writeAt (writeAt (List.replicate 2352 (0 : Nat)) 0 sync_bytes) 0x0F
      [0x01]).length = 2352 := by
    rw [length_writeAt _ _ _ (by rw [i1]; decide), i1]
  have i3 : (writeAt (writeAt (writeAt (List.replicate 2352 (0 : Nat)) 0 sync_bytes) 0x0F
      [0x01]) 0x0C (seg w 0x0C 3)).length = 2352 := by
    rw [length_writeAt _ _ _ (by rw [i2, h3]; norm_num), i2]
  have hBlen : (writeAt (writeAt (writeAt (writeAt (List.replicate 2352 (0 : Nat)) 0
      sync_bytes) 0x0F [0x01]) 0x0C (seg w 0x0C 3)) 0x10 (seg w 0x10 2048)).length = 2352 := by
    rw [length_writeAt _ _ _ (by rw [i3, h2048]; norm_num), i3]
  set B := writeAt (writeAt (writeAt (writeAt (List.replicate 2352 (0 : Nat)) 0 sync_bytes)
    0x0F [0x01]) 0x0C (seg w 0x0C 3)) 0x10 (seg w 0x10 2048) with hBdef
  have hB : ∀ i, i < 0x810 → B.getD i 0 = w.getD i 0 := by
    intro i hi
    rw [hBdef]
    by_cases h16 : 0x10 ≤ i
    · rw [getD_writeAt _ _ _ _ (by rw [i3, h2048]; norm_num),
        if_pos ⟨h16, by rw [h2048]; omega⟩, getD_seg _ _ _ _ _ (by omega)]
      congr 1
      omega
    · push_neg at h16
      rw [getD_writeAt _ _ _ _ (by rw [i3, h2048]; norm_num), if_neg (by rw [h2048]; omega)]
      by_cases h15 : i = 15
      · subst h15
        rw [getD_writeAt _ _ _ _ (by rw [i2, h3]; norm_num), if_neg (by rw [h3]; omega),
          getD_writeAt _ _ _ _ (by rw [i1]; decide), if_pos (by decide)]
        exact hmode.symm
      · by_cases h12 : 12 ≤ i
        · rw [getD_writeAt _ _ _ _ (by rw [i2, h3]; norm_num),
            if_pos ⟨h12, by rw [h3]; omega⟩, getD_seg _ _ _ _ _ (by omega)]
          rw [show 0x0C + (i - 0x0C) = i from by omega]
        · push_neg at h12
          rw [getD_writeAt _ _ _ _ (by rw [i2, h3]; norm_num), if_neg (by rw [h3]; omega),
            getD_writeAt _ _ _ _ (by rw [i1]; decide), if_neg (by omega),
            getD_writeAt _ _ _ _ (by rw [r0]; decide), if_pos ⟨by omega, by
              rw [show sync_bytes.length = 12 from rfl]; omega⟩]
          rw [show i - 0 = i from by omega]
          exact (hsync' i (by omega)).symm
  have hsegB : seg B 0 0x810 = seg w 0 0x810 :=
    seg_congr _ _ _ _ (by rw [hBlen]; norm_num) (by rw [hw]; norm_num)
      fun i _ hi2 => hB i (by omega)
  have hkey : eccedc_generate B 1 = w := by
    unfold eccedc_generate
    rw [if_pos rfl, hsegB]
    have hElen : (edcLE (edc_compute 0 (seg w 0 0x810))).length = 4 := length_edcLE _
    have hB1len : (writeAt B 0x810 (edcLE (edc_compute 0 (seg w 0 0x810)))).length = 2352 := by
      rw [length_writeAt _ _ _ (by rw [hBlen, hElen]; norm_num), hBlen]
    have hB2len : (writeAt (writeAt B 0x810 (edcLE (edc_compute 0 (seg w 0 0x810)))) 0x814
        (List.replicate 8 0)).length = 2352 := by
      rw [length_writeAt _ _ _ (by rw [hB1len, List.length_replicate]; norm_num), hB1len]
    apply ecc_generate_eq_of_verify w _ hw hB2len _ hecc
    intro i hi
    rw [getD_writeAt _ _ _ _ (by rw [hB1len, List.length_replicate]; norm_num)]
    split_ifs with hin8
    · rw [List.length_replicate] at hin8
      rw [getD_replicate _ _ _ _ (by omega)]
      have := hres (i - 0x814) (by omega)
      rw [show 0x814 + (i - 0x814) = i from by omega] at this
      exact this.symm
    · rw [List.length_replicate] at hin8
      rw [getD_writeAt _ _ _ _ (by rw [hBlen, hElen]; norm_num)]
      split_ifs with hin4
      · rw [hElen] at hin4
        have := hedc (i - 0x810) (by omega)
        rw [show 0x810 + (i - 0x810) = i from by omega] at this
        exact this.symm
      · rw [hElen] at hin4
        exact hB i (by omega)
  unfold decode_mode1_sector
  rw [if_neg (by rw [hslen]; omega)]
  simp only []
  rw [htk, hsg, hdp, ← hBdef, hkey, seg_all_of_length w 2352 hw]

/-- One step of the decoder's Mode 1 `while (num--)` sector loop. -/
theorem unecm_sectors_step_one (c : Nat) (stream rest w : List Nat) (edc bw e2 : Nat)
    (hd : decode_mode1_sector stream edc = some (w, e2, rest)) :
    unecm_sectors (c + 1) 1 stream edc bw =
      match unecm_sectors c 1 rest e2 (bw + 2352) with
      | .error e => .error e
      | .ok r => .ok (w ++ r.1, r.2) := by
  conv_lhs => rw [unecm_sectors]
  rw [if_pos (show (1 : Nat) = 1 ∨ 1 = 2 ∨ 1 = 3 from Or.inl rfl),
    if_pos (rfl : (1 : Nat) = 1), hd]

/-- Decoding the encoder's payload for a whole Mode 1 run reproduces the
run's bytes and threads the image EDC exactly as `sector_run_go` does. -/
theorem unecm_sectors_encode (c : Nat) : ∀ (b suffix : List Nat) (edc bw : Nat),
    b.length = 2352 * c →
    (∀ j, j * 2352 < b.length → check_type_raw (seg b (j * 2352) 2352) = 1) →
    unecm_sectors c 1 ((sector_run_go c 1 b edc).2 ++ suffix) edc bw =
      .ok (b, (sector_run_go c 1 b edc).1, bw + 2352 * c, suffix) := by
  induction c with
  | zero =>
      intro b suffix edc bw hlen hwin
      have hb : b = [] := List.eq_nil_of_length_eq_zero (by omega)
      subst hb
      rfl
  | succ n ih =>
      intro b suffix edc bw hlen hwin
      have htake : (b.take 2352).length = 2352 := by rw [List.length_take]; omega
      have hdroplen : (b.drop 2352).length = 2352 * n := by rw [List.length_drop]; omega
      have hw0 : check_type_raw (b.take 2352) = 1 := by
        have := hwin 0 (by omega)
        rwa [show (0 : Nat) * 2352 = 0 from rfl, seg, List.drop_zero] at this
      have hwsd : write_sector_data edc 1 (b.take 2352) =
          (edc_compute edc (b.take 2352),
           seg (b.take 2352) 0x0C 3 ++ seg (b.take 2352) 0x10 2048) := by
        unfold write_sector_data
        rw [if_pos rfl, seg_all_of_length _ _ htake]
      have hpair : sector_run_go (n + 1) 1 b edc =
          ((sector_run_go n 1 (b.drop 2352) (edc_compute edc (b.take 2352))).1,
           (seg (b.take 2352) 0x0C 3 ++ seg (b.take 2352) 0x10 2048) ++
             (sector_run_go n 1 (b.drop 2352) (edc_compute edc (b.take 2352))).2) := by
        conv_lhs => rw [sector_run_go]
        rw [hwsd]
      have hpay : (sector_run_go (n + 1) 1 b edc).2 =
          (seg (b.take 2352) 0x0C 3 ++ seg (b.take 2352) 0x10 2048) ++
            (sector_run_go n 1 (b.drop 2352) (edc_compute edc (b.take 2352))).2 := by
        rw [hpair]
      have hedc1 : (sector_run_go (n + 1) 1 b edc).1 =
          (sector_run_go n 1 (b.drop 2352) (edc_compute edc (b.take 2352))).1 := by
        rw [hpair]
      rw [hpay, hedc1, List.append_assoc]
      have hd := decode_mode1_reconstructs (b.take 2352) htake hw0
        ((sector_run_go n 1 (b.drop 2352) (edc_compute edc (b.take 2352))).2 ++ suffix) edc
      rw [unecm_sectors_step_one n _ _ _ _ _ _ hd]
      have hwin' : ∀ j, j * 2352 < (b.drop 2352).length →
          check_type_raw (seg (b.drop 2352) (j * 2352) 2352) = 1 := by
        intro j hj
        have hseg : seg (b.drop 2352) (j * 2352) 2352 = seg b ((j + 1) * 2352) 2352 := by
          simp only [seg, List.drop_drop]
          rw [show 2352 + j * 2352 = (j + 1) * 2352 from by omega]
        rw [hseg]
        apply hwin
        rw [List.length_drop] at hj
        omega
      rw [ih (b.drop 2352) suffix (edc_compute edc (b.take 2352)) (bw + 2352) hdroplen hwin']
      show Except.ok (b.take 2352 ++ b.drop 2352,
        (sector_run_go n 1 (b.drop 2352) (edc_compute edc (b.take 2352))).1,
        bw + 2352 + 2352 * n, suffix) = _
      rw [List.take_append_drop, show bw + 2352 + 2352 * n = bw + 2352 * (n + 1) from by omega]

/-! ### Record-level decode of encoded runs (C1) -/

/-- Decoding one encoded literal run consumes exactly the run. -/
theorem unecm_loop_literal_run (fuel : Nat) (b suffix out : List Nat) (edc bw : Nat)
    (hb : b ≠ []) (hsz : b.length < 0x80000000) :
    unecm_loop (fuel + 1) ((write_type_count 0 b.length ++ b) ++ suffix) edc out bw =
      unecm_loop fuel suffix (edc_compute edc b) (out ++ b) (bw + b.length) := by
  have hb1 : 1 ≤ b.length := by
    rcases Nat.eq_zero_or_pos b.length with h0 | h1
    · exact absurd (List.eq_nil_of_length_eq_zero h0) hb
    · exact h1
  have hr : read_type_count ((write_type_count 0 b.length ++ b) ++ suffix) =
      .ok (0, b.length - 1, b ++ suffix) := by
    rw [List.append_assoc]
    exact read_write_type_count_pos 0 b.length (b ++ suffix) (by norm_num) hb1
      (by norm_num; omega)
  have hl := literal_copy_go_eq (b.length - 1 + 1) (b.length - 1 + 1) (b ++ suffix) edc
    (le_refl _) (by simp only [List.length_append]; omega)
  have htk : (b ++ suffix).take (b.length - 1 + 1) = b := by
    rw [show b.length - 1 + 1 = b.length from by omega]
    exact List.take_left b suffix
  have hdp : (b ++ suffix).drop (b.length - 1 + 1) = suffix := by
    rw [show b.length - 1 + 1 = b.length from by omega]
    exact List.drop_left b suffix
  rw [htk, hdp] at hl
  rw [unecm_loop_literal_step fuel _ _ out b suffix edc (b.length - 1) bw
    (edc_compute edc b) hr (by omega) (by omega) hl]
  rw [show b.length - 1 + 1 = b.length from by omega]

/-- Decoding one encoded Mode 1 sector run reproduces the run's bytes. -/
theorem unecm_loop_mode1_run (fuel : Nat) (b suffix out : List Nat) (edc bw : Nat)
    (hb : b ≠ []) (hmod : b.length % 2352 = 0) (hsz : b.length < 0x80000000)
    (hwin : ∀ j, j * 2352 < b.length → check_type_raw (seg b (j * 2352) 2352) = 1) :
    unecm_loop (fuel + 1)
      ((write_type_count 1 (b.length / 2352) ++
        (sector_run_go (b.length / 2352) 1 b edc).2) ++ suffix) edc out bw =
      unecm_loop fuel suffix (sector_run_go (b.length / 2352) 1 b edc).1 (out ++ b)
        (bw + b.length) := by
  have hb1 : 1 ≤ b.length := by
    rcases Nat.eq_zero_or_pos b.length with h0 | h1
    · exact absurd (List.eq_nil_of_length_eq_zero h0) hb
    · exact h1
  set c := b.length / 2352 with hc
  have hbc : b.length = 2352 * c := (Nat.mul_div_cancel' (Nat.dvd_of_mod_eq_zero hmod)).symm
  have hc1 : 1 ≤ c := by omega
  have hr : read_type_count ((write_type_count 1 c ++ (sector_run_go c 1 b edc).2) ++ suffix) =
      .ok (1, c - 1, (sector_run_go c 1 b edc).2 ++ suffix) := by
    rw [List.append_assoc]
    exact read_write_type_count_pos 1 c _ (by norm_num) hc1 (by norm_num; omega)
  have hs := unecm_sectors_encode c b suffix edc bw hbc hwin
  have hs' : unecm_sectors (c - 1 + 1) 1 ((sector_run_go c 1 b edc).2 ++ suffix) edc bw =
      .ok (b, (sector_run_go c 1 b edc).1, bw + 2352 * c, suffix) := by
    rw [show c - 1 + 1 = c from by omega]
    exact hs
  rw [unecm_loop_sector_step fuel _ _ out b suffix edc 1 (c - 1) bw
    (sector_run_go c 1 b edc).1 (bw + 2352 * c) hr (by omega) (by omega) (by norm_num) hs']
  rw [hbc]

/-- Decoding the concatenated encodings of a list of well-formed runs
consumes them all, accumulating exactly the runs' bytes and threading the
image EDC as the encoder does. -/
theorem unecm_loop_runs (rs : List (Nat × List Nat)) :
    ∀ (extra edc bw : Nat) (out suffix : List Nat),
    (∀ p ∈ rs, run_ok p) → (∀ p ∈ rs, p.2.length < 0x80000000) →
    unecm_loop (rs.length + (extra + 1)) ((runs_encode edc rs).2 ++ suffix) edc out bw =
      unecm_loop (extra + 1) suffix (runs_encode edc rs).1 (out ++ chunks_bytes rs)
        (bw + (chunks_bytes rs).length) := by
  induction rs with
  | nil =>
      intro extra edc bw out suffix _ _
      simp only [List.length_nil, Nat.zero_add, chunks_bytes, List.append_nil,
        Nat.add_zero]
      rfl
  | cons p rs ih =>
      intro extra edc bw out suffix hok hsz
      rcases p with ⟨t, b⟩
      have hszh : b.length < 0x80000000 := hsz (t, b) (List.mem_cons_self _ _)
      have hok' := fun q hq => hok q (List.mem_cons_of_mem _ hq)
      have hsz' := fun q hq => hsz q (List.mem_cons_of_mem _ hq)
      rcases hok (t, b) (List.mem_cons_self _ _) with ⟨ht, hb⟩ | ⟨ht, hb, hmod, hwin⟩
      · have ht0 : t = 0 := ht
        subst ht0
        have hbne : b ≠ [] := hb
        have hfl : flush_sector_run edc 0 b.length b =
            (edc_compute edc b, write_type_count 0 b.length ++ b) := by
          unfold flush_sector_run
          rw [if_pos rfl]
        have hfl1 : (flush_sector_run edc 0 b.length b).1 = edc_compute edc b := by
          rw [hfl]
        have hfl2 : (flush_sector_run edc 0 b.length b).2 =
            write_type_count 0 b.length ++ b := by
          rw [hfl]
        simp only [runs_encode, List.length_cons, chunks_bytes, if_true]
        rw [hfl1, hfl2, List.append_assoc]
        rw [show rs.length + 1 + (extra + 1) = rs.length + (extra + 1) + 1 from by omega]
        rw [unecm_loop_literal_run (rs.length + (extra + 1)) b
          ((runs_encode (edc_compute edc b) rs).2 ++ suffix) out edc bw hbne hszh]
        rw [ih extra (edc_compute edc b) (bw + b.length) (out ++ b) suffix hok' hsz']
        rw [List.append_assoc, List.length_append, ← Nat.add_assoc]
      · have ht1 : t = 1 := ht
        subst ht1
        have hbne : b ≠ [] := hb
        have hmodb : b.length % 2352 = 0 := hmod
        have hwinb : ∀ j, j * 2352 < b.length →
            check_type_raw (seg b (j * 2352) 2352) = 1 := hwin
        have hfl : flush_sector_run edc 1 (b.length / 2352) b =
            ((sector_run_go (b.length / 2352) 1 b edc).1,
             write_type_count 1 (b.length / 2352) ++
               (sector_run_go (b.length / 2352) 1 b edc).2) := by
          unfold flush_sector_run
          rw [if_neg (by norm_num)]
        have hfl1 : (flush_sector_run edc 1 (b.length / 2352) b).1 =
            (sector_run_go (b.length / 2352) 1 b edc).1 := by
          rw [hfl]
        have hfl2 : (flush_sector_run edc 1 (b.length / 2352) b).2 =
            write_type_count 1 (b.length / 2352) ++
              (sector_run_go (b.length / 2352) 1 b edc).2 := by
          rw [hfl]
        simp only [runs_encode, List.length_cons, chunks_bytes]
        rw [if_neg (by norm_num : ¬ (1 : Nat) = 0)]
        rw [hfl1, hfl2, List.append_assoc]
        rw [show rs.length + 1 + (extra + 1) = rs.length + (extra + 1) + 1 from by omega]
        rw [unecm_loop_mode1_run (rs.length + (extra + 1)) b
          ((runs_encode ((sector_run_go (b.length / 2352) 1 b edc).1) rs).2 ++ suffix)
          out edc bw hbne hmodb hszh hwinb]
        rw [ih extra ((sector_run_go (b.length / 2352) 1 b edc).1) (bw + b.length)
          (out ++ b) suffix hok' hsz']
        rw [List.append_assoc, List.length_append, ← Nat.add_assoc]

theorem length_write_type_count_pos (ty count : Nat) :
    1 ≤ (write_type_count ty count).length := by
  unfold write_type_count
  exact List.length_pos.mpr (List.cons_ne_nil _ _)

theorem length_flush_pos (edc t c : Nat) (b : List Nat) :
    1 ≤ (flush_sector_run edc t c b).2.length := by
  unfold flush_sector_run
  split_ifs with h
  · show 1 ≤ (write_type_count 0 c ++ b).length
    rw [List.length_append]
    have := length_write_type_count_pos 0 c
    omega
  · show 1 ≤ (write_type_count t c ++ (sector_run_go c t b edc).2).length
    rw [List.length_append]
    have := length_write_type_count_pos t c
    omega

theorem runs_encode_length_ge (rs : List (Nat × List Nat)) : ∀ edc : Nat,
    rs.length ≤ (runs_encode edc rs).2.length := by
  induction rs with
  | nil => intro edc; exact Nat.zero_le _
  | cons p rs ih =>
      intro edc
      rcases p with ⟨t, b⟩
      simp only [runs_encode, List.length_cons, List.length_append]
      have h1 := length_flush_pos edc t (if t = 0 then b.length else b.length / 2352) b
      have h2 := ih (flush_sector_run edc t (if t = 0 then b.length else b.length / 2352) b).1
      omega

theorem mem_length_le_chunks_bytes (rs : List (Nat × List Nat)) :
    ∀ p ∈ rs, p.2.length ≤ (chunks_bytes rs).length := by
  induction rs with
  | nil => intro p hp; exact absurd hp (List.not_mem_nil p)
  | cons q rest ih =>
      intro p hp
      rcases q with ⟨t, b⟩
      rcases List.mem_cons.mp hp with rfl | htail
      · simp only [chunks_bytes, List.length_append]
        omega
      · have := ih p htail
        simp only [chunks_bytes, List.length_append]
        omega

/-- Full decode of a framed encoding of well-formed runs. -/
theorem unecmify_encode_frame (rs : List (Nat × List Nat))
    (hok : ∀ p ∈ rs, run_ok p) (hsz : ∀ p ∈ rs, p.2.length < 0x80000000) :
    unecmify (ecm_magic ++ (runs_encode 0 rs).2 ++ write_type_count 0 0 ++
      edcLE (runs_encode 0 rs).1) = .ok (chunks_bytes rs) := by
  have hlenE : (ecm_magic ++ (runs_encode 0 rs).2 ++ write_type_count 0 0 ++
      edcLE (runs_encode 0 rs).1).length = 13 + (runs_encode 0 rs).2.length := by
    simp only [List.length_append, length_edcLE,
      show ecm_magic.length = 4 from rfl,
      show (write_type_count 0 0).length = 5 from by decide]
    omega
  unfold unecmify
  rw [if_neg (by rw [hlenE]; omega)]
  have htake : (ecm_magic ++ (runs_encode 0 rs).2 ++ write_type_count 0 0 ++
      edcLE (runs_encode 0 rs).1).take 4 = ecm_magic := by
    rw [List.append_assoc, List.append_assoc]
    exact List.take_left' rfl
  rw [if_neg (not_not_intro htake)]
  have hdrop : (ecm_magic ++ (runs_encode 0 rs).2 ++ write_type_count 0 0 ++
      edcLE (runs_encode 0 rs).1).drop 4 =
      (runs_encode 0 rs).2 ++ (write_type_count 0 0 ++ edcLE (runs_encode 0 rs).1) := by
    rw [List.append_assoc, List.append_assoc]
    exact List.drop_left' rfl
  rw [hdrop, hlenE]
  have hrl : rs.length ≤ (runs_encode 0 rs).2.length := runs_encode_length_ge rs 0
  rw [show 13 + (runs_encode 0 rs).2.length + 1 =
    rs.length + ((13 + (runs_encode 0 rs).2.length - rs.length - 1) + 1) + 1 from by omega]
  rw [show rs.length + ((13 + (runs_encode 0 rs).2.length - rs.length - 1) + 1) + 1 =
    rs.length + (((13 + (runs_encode 0 rs).2.length - rs.length - 1) + 1) + 1) from by omega]
  rw [unecm_loop_runs rs ((13 + (runs_encode 0 rs).2.length - rs.length - 1) + 1) 0 0 []
    (write_type_count 0 0 ++ edcLE (runs_encode 0 rs).1) hok hsz]
  have htk4 : (edcLE (runs_encode 0 rs).1).take 4 = edcLE (runs_encode 0 rs).1 := rfl
  rw [unecm_loop_sentinel_step _ _ _ _ _ 0 _ (read_write_sentinel _)
    (by rw [length_edcLE]; norm_num) htk4]
  rw [List.nil_append]

theorem run_ok_of_chunk (p : Nat × List Nat)
    (h : (p.1 = 0 ∧ p.2 ≠ []) ∨ (p.1 = 1 ∧ p.2.length = 2352 ∧ check_type_raw p.2 = 1)) :
    run_ok p := by
  rcases h with ⟨h1, h2⟩ | ⟨h1, h2, h3⟩
  · exact Or.inl ⟨h1, h2⟩
  · refine Or.inr ⟨h1, ?_, by rw [h2], ?_⟩
    · intro hcon
      rw [hcon] at h2
      simp at h2
    · intro j hj
      have hj0 : j = 0 := by
        rw [h2] at hj
        by_contra hne
        have h1j : 1 ≤ j := by omega
        have : 2352 ≤ j * 2352 := by
          calc (2352 : Nat) = 1 * 2352 := by omega
          _ ≤ j * 2352 := Nat.mul_le_mul_right _ h1j
        omega
      subst hj0
      rw [show (0 : Nat) * 2352 = 0 from rfl, seg_all_of_length _ _ h2]
      exact h3

/-- C1 (amended): the round trip `decode (encode I) = I` holds — for both
the batch and the streaming encoder — for every image whose analysis pass
yields only literal and Mode 1 chunks (and whose length fits the decoder's
31-bit count guard).  It does not hold in general: for Mode 2 sectors the
decoder regenerates bytes 12..15 from the output position, so a Mode 2
sector round-trips only if its address/mode field already equals the
position-derived MSF (see the counterexample). -/
theorem claim_C1_amended (I : List Nat) (hsz : I.length < 0x80000000)
    (hty : ∀ p ∈ chunk_analysis I, p.1 = 0 ∨ p.1 = 1) :
    unecmify (ecmify I) = .ok I ∧ unecmify (ecmify_streaming I) = .ok I := by
  have hchunk := chunk_analysis_go_ok I.length I (le_refl _)
  have hchunk' : ∀ p ∈ chunk_analysis I, (p.1 = 0 ∧ p.2 ≠ []) ∨
      (p.1 = 1 ∧ p.2.length = 2352 ∧ check_type_raw p.2 = 1) := by
    intro p hp
    rcases hchunk p hp with ⟨h1, h2⟩ | ⟨h1, h2, h3⟩
    · exact Or.inl ⟨h1, h2⟩
    · rcases hty p hp with h0 | ht1
      · exact absurd h0 h1
      · exact Or.inr ⟨ht1, h2, by rw [← ht1]; exact h3⟩
  have hjoin : chunks_bytes (chunk_analysis I) = I :=
    chunk_analysis_go_bytes I.length I (le_refl _)
  constructor
  · have hok := coalesce_ok (chunk_analysis I) hchunk'
    have hjoin2 : chunks_bytes (coalesce (chunk_analysis I)) = I := by
      rw [chunks_bytes_coalesce]
      exact hjoin
    have hsz2 : ∀ p ∈ coalesce (chunk_analysis I), p.2.length < 0x80000000 := by
      intro p hp
      have := mem_length_le_chunks_bytes _ p hp
      rw [hjoin2] at this
      omega
    show unecmify (ecm_magic ++ (runs_encode 0 (coalesce (chunk_analysis I))).2 ++
      write_type_count 0 0 ++ edcLE (runs_encode 0 (coalesce (chunk_analysis I))).1) = .ok I
    rw [unecmify_encode_frame _ hok hsz2, hjoin2]
  · have hok : ∀ p ∈ chunk_analysis I, run_ok p :=
      fun p hp => run_ok_of_chunk p (hchunk' p hp)
    have hsz2 : ∀ p ∈ chunk_analysis I, p.2.length < 0x80000000 := by
      intro p hp
      have := mem_length_le_chunks_bytes _ p hp
      rw [hjoin] at this
      omega
    show unecmify (ecm_magic ++ (runs_encode 0 (chunk_analysis I)).2 ++
      write_type_count 0 0 ++ edcLE (runs_encode 0 (chunk_analysis I)).1) = .ok I
    rw [unecmify_encode_frame _ hok hsz2, hjoin]

/-- C1 witness: the amended round trip on a concrete 3-byte literal image. -/
theorem claim_C1_witness :
    unecmify (ecmify [1, 2, 3]) = .ok [1, 2, 3] ∧
    unecmify (ecmify_streaming [1, 2, 3]) = .ok [1, 2, 3] :=
  claim_C1_amended [1, 2, 3] (by norm_num) (by decide)

theorem runs_covered_eq_bytes (rs : List (Nat × List Nat))
    (h : ∀ p ∈ rs, run_ok p) : runs_covered rs = chunks_bytes rs := by
  induction rs with
  | nil => rfl
  | cons p rs ih =>
      rcases p with ⟨t, b⟩
      simp only [runs_covered, chunks_bytes]
      rw [ih (fun q hq => h q (List.mem_cons_of_mem _ hq))]
      congr 1
      rcases h (t, b) (List.mem_cons_self _ _) with ⟨ht, _⟩ | ⟨ht, _, hmod, _⟩
      · rw [run_covered, if_pos (show t = 0 from ht)]
      · rw [run_covered, if_neg (show ¬ t = 0 by rw [show t = 1 from ht]; norm_num)]
        rw [show t = 1 from ht]
        exact edc_covered_go_one _ b
          (Nat.mul_div_cancel' (Nat.dvd_of_mod_eq_zero
            (show b.length % 2352 = 0 from hmod))).symm

end ECM
